import Mathlib

/-!
Verification of the `bend` process supervisor against its specification.

The definitions below are a shallow embedding of the relevant parts of
`src/server.py` and `src/process.py`:

* Python byte strings are modelled as `List Char` (entries are ASCII lines;
  the byte/codepoint distinction only matters for UTF-8 decoding, which the
  claims treat modulo BOM decoration).
* Python `str.find`, slicing, `split`, `splitlines` are modelled by the
  helpers in the `Py` namespace, with `Option Nat` standing for the
  `-1`/index convention of `find`.
* Exceptions are modelled with `Except`; the two unbounded `while 1` loops
  of `parse_syslog` are given fuel, and fuel exhaustion (constructor
  `PErr.nonTermination`) models divergence of the source.
* Wall-clock times and progress values are modelled as `ℚ`.
-/

namespace Bend

instance {ε α : Type} [DecidableEq ε] [DecidableEq α] :
    DecidableEq (Except ε α) := fun x y =>
  match x, y with
  | .ok a, .ok b =>
    if h : a = b then isTrue (by rw [h]) else isFalse (by simp [h])
  | .error a, .error b =>
    if h : a = b then isTrue (by rw [h]) else isFalse (by simp [h])
  | .ok _, .error _ => isFalse (by simp)
  | .error _, .ok _ => isFalse (by simp)

/-! ## Python string helpers -/

namespace Py

/-- Split at the first occurrence of `sep`, exclusive; `none` when absent. -/
def breakAt (sep : Char) : List Char → Option (List Char × List Char)
  | [] => none
  | c :: cs =>
    if c = sep then some ([], cs)
    else (breakAt sep cs).map (fun p => (c :: p.1, p.2))

/-- Python `s.split(sep, limit)` for a one-character separator: at most
`limit` splits, consecutive separators produce empty fields, the remainder
is kept whole. -/
def splitLimit (sep : Char) : Nat → List Char → List (List Char)
  | 0, cs => [cs]
  | n + 1, cs =>
    match breakAt sep cs with
    | none => [cs]
    | some (a, b) => a :: splitLimit sep n b

/-- Python `s.split(sep)` (unlimited). -/
def splitAll (sep : Char) : List Char → List (List Char)
  | [] => [[]]
  | c :: rest =>
    let r := splitAll sep rest
    if c = sep then [] :: r else (c :: r.headD []) :: r.tail

/-- Index (counting from `base`) of the first occurrence of `c` in `cs`. -/
def findAux (c : Char) : List Char → Nat → Option Nat
  | [], _ => none
  | x :: xs, i => if x = c then some i else findAux c xs (i + 1)

/-- Python `s.find(c, start)`: first index `≥ start` holding `c`, else `none`
(the source compares against `-1`). -/
def findFrom (cs : List Char) (c : Char) (start : Nat) : Option Nat :=
  findAux c (cs.drop start) start

/-- Python `s.find(c, start, stop)`: first index in `[start, stop)` holding
`c`. -/
def findInRange (cs : List Char) (c : Char) (start stop : Nat) : Option Nat :=
  match findFrom cs c start with
  | some i => if i < stop then some i else none
  | none => none

/-- Python slice `s[a:b]` (for `0 ≤ a, b`). -/
def slice (cs : List Char) (a b : Nat) : List Char :=
  (cs.drop a).take (b - a)

/-- Normalize the Python 2 `str.splitlines` terminators (`\r\n`, `\r`) to
`\n`. -/
def normNewlines : List Char → List Char
  | [] => []
  | '\r' :: '\n' :: rest => '\n' :: normNewlines rest
  | '\r' :: rest => '\n' :: normNewlines rest
  | c :: rest => c :: normNewlines rest

/-- Worker for `splitlines` over normalized input; `acc` holds the current
line reversed. -/
def splitlinesGo (acc : List Char) : List Char → List (List Char)
  | [] => [acc.reverse]
  | c :: rest =>
    if c = '\n' then
      if rest.isEmpty then [acc.reverse] else acc.reverse :: splitlinesGo [] rest
    else splitlinesGo (c :: acc) rest

/-- Python 2 `str.splitlines`: split on `\n`, `\r` and `\r\n`; a trailing
terminator does not produce an empty final line; `''` gives `[]`. -/
def splitlines (cs : List Char) : List (List Char) :=
  match cs with
  | [] => []
  | _ => splitlinesGo [] (normNewlines cs)

/-- Numeric value of a big-endian digit string (callers check `isDigit`). -/
def digitsVal (ds : List Char) : Nat :=
  ds.foldl (fun n c => n * 10 + (c.toNat - 48)) 0

/-- Python `int(s)`: optional surrounding whitespace, optional sign, a
non-empty run of decimal digits. -/
def pyInt (cs : List Char) : Option Int :=
  let t := ((cs.dropWhile Char.isWhitespace).reverse.dropWhile Char.isWhitespace).reverse
  match t with
  | '-' :: ds =>
    if ds.isEmpty then none
    else if ds.all Char.isDigit then some (-(digitsVal ds : Int)) else none
  | '+' :: ds =>
    if ds.isEmpty then none
    else if ds.all Char.isDigit then some (digitsVal ds : Int) else none
  | ds =>
    if ds.isEmpty then none
    else if ds.all Char.isDigit then some (digitsVal ds : Int) else none

/-- Python `float(s)` on finite decimal literals: optional surrounding
whitespace, optional sign, then `d+`, `d+.d*`, `.d+`, with an optional
decimal exponent. The value is assembled as one exact fraction
(`mkRat`); IEEE specials (`inf`, `nan`) lie outside the rational model
and yield `none`. -/
def pyFloat (cs : List Char) : Option ℚ :=
  let t := ((cs.dropWhile Char.isWhitespace).reverse.dropWhile Char.isWhitespace).reverse
  match t with
  | '-' :: rest => (core rest).map (fun p => mkRat (-p.1) p.2)
  | '+' :: rest => (core rest).map (fun p => mkRat p.1 p.2)
  | rest => (core rest).map (fun p => mkRat p.1 p.2)
where
  expApply (num : Int) (den : Nat) (rest : List Char) :
      Option (Int × Nat) :=
    match rest with
    | [] => some (num, den)
    | e :: ds =>
      if e = 'e' ∨ e = 'E' then
        match ds with
        | '-' :: ds2 =>
          if ds2.isEmpty ∨ ¬ ds2.all Char.isDigit then none
          else some (num, den * 10 ^ digitsVal ds2)
        | '+' :: ds2 =>
          if ds2.isEmpty ∨ ¬ ds2.all Char.isDigit then none
          else some (num * 10 ^ digitsVal ds2, den)
        | ds2 =>
          if ds2.isEmpty ∨ ¬ ds2.all Char.isDigit then none
          else some (num * 10 ^ digitsVal ds2, den)
      else none
  core (rest : List Char) : Option (Int × Nat) :=
    let intPart := rest.takeWhile Char.isDigit
    let rest2 := rest.dropWhile Char.isDigit
    match rest2 with
    | '.' :: rest3 =>
      let fracPart := rest3.takeWhile Char.isDigit
      let rest4 := rest3.dropWhile Char.isDigit
      if intPart.isEmpty ∧ fracPart.isEmpty then none
      else
        expApply
          ((digitsVal intPart * 10 ^ fracPart.length + digitsVal fracPart :
            Nat) : Int)
          (10 ^ fracPart.length) rest4
    | _ =>
      if intPart.isEmpty then none
      else expApply (digitsVal intPart : Int) 1 rest2

/-- Exact subtraction of rationals, written out through `mkRat` so that
concrete instances kernel-reduce (the library marks `Rat.sub`
irreducible); `ratSub_eq` below shows it is ordinary subtraction. -/
def ratSub (a b : ℚ) : ℚ :=
  mkRat (a.num * b.den - b.num * a.den) (a.den * b.den)

theorem ratSub_eq (a b : ℚ) : ratSub a b = a - b := by
  have ha : (a.den : ℚ) ≠ 0 := by
    exact_mod_cast a.den_nz
  have hb : (b.den : ℚ) ≠ 0 := by
    exact_mod_cast b.den_nz
  rw [ratSub, Rat.mkRat_eq_div]
  conv_rhs => rw [← Rat.num_div_den a, ← Rat.num_div_den b]
  rw [div_sub_div _ _ ha hb]
  push_cast
  ring_nf

end Py

/-! ## Association-list helpers

Python `dict` assignment, lookup, containment and deletion, modelled on
insertion-ordered association lists (replacement keeps the key's place). -/

section AList

variable {α β : Type} [DecidableEq α]

/-- `d[k] = v`. -/
def alSet (k : α) (v : β) : List (α × β) → List (α × β)
  | [] => [(k, v)]
  | (k', v') :: t => if k' = k then (k, v) :: t else (k', v') :: alSet k v t

/-- `d[k]` / `d.get(k)`. -/
def alGet (k : α) : List (α × β) → Option β
  | [] => none
  | (k', v') :: t => if k' = k then some v' else alGet k t

/-- `del d[k]`. -/
def alDel (k : α) : List (α × β) → List (α × β)
  | [] => []
  | (k', v') :: t => if k' = k then t else (k', v') :: alDel k t

/-- Insert into a set of keys (`d[k] = object`, keys only). -/
def setInsert (k : α) (l : List α) : List α :=
  if k ∈ l then l else l ++ [k]

end AList

/-! ## The syslog parser (`server.parse_syslog`) -/

/-- `server.is_graph`: only ASCII graphical characters `0x21..0x7E`. -/
def isGraphChar (c : Char) : Bool :=
  0x21 ≤ c.toNat && c.toNat ≤ 0x7E

/-- `server.is_graph` on a whole string (`True` on the empty string, as in
the source). -/
def is_graph (s : List Char) : Bool :=
  s.all isGraphChar

/-- How an embedded run of `parse_syslog` fails: a raised `ValueError`, a
raised `IndexError` (out-of-range subscript), or divergence of one of the
source's `while 1` loops (a zero-parameter element never advances `bstart`,
so the source spins forever; the fuelled model reports `nonTermination`). -/
inductive PErr
  | valueError
  | indexError
  | nonTermination
deriving DecidableEq

/-- The header dict built by `parse_syslog`. The source stores
`dateutil_parser.parse(timestamp)`; the model keeps the raw timestamp token
(the external date parser is not part of this repository). -/
structure SyslogHead where
  prival : Int
  version : Int
  timestamp : Option (List Char)
  hostname : Option (List Char)
  appname : Option (List Char)
  procid : Option (List Char)
  msgid : Option (List Char)
deriving DecidableEq

/-- One element's params: `param-name ↦ value`, insertion ordered. -/
abbrev SParams := List (List Char × List Char)

/-- Structured data: `element-id ↦ params`, insertion ordered. -/
abbrev SData := List (List Char × SParams)

/-- The message tail. The source returns a `unicode` object (BOM stripped)
when the message starts with the UTF-8 BOM bytes, otherwise the raw string;
`bom` records which. -/
structure SyslogMsg where
  bom : Bool
  text : List Char
deriving DecidableEq

instance : DecidableEq SParams := inferInstance

instance : DecidableEq SData := inferInstance

abbrev SyslogResult := SyslogHead × SData × SyslogMsg

instance : DecidableEq SyslogResult := inferInstance

/-- Whether `_re_close_dquote` matches at position `j`: an even run of
backslashes followed by `"`, not preceded by a backslash. Returns the
index one past the quote (`match.end(0)`). -/
def matchCloseAt (cs : List Char) (j : Nat) : Option Nat :=
  let r := ((cs.drop j).takeWhile (· = '\\')).length
  if (j = 0 ∨ cs.get? (j - 1) ≠ some '\\') ∧ r % 2 = 0 ∧ cs.get? (j + r) = some '"'
  then some (j + r + 1) else none

/-- `_re_close_dquote.search(cs, pos).end(0)`: end position of the leftmost
match at or after `pos`. -/
def closeDQuoteEnd (cs : List Char) (pos : Nat) : Option Nat :=
  go (cs.length + 1 - pos) pos
where
  go : Nat → Nat → Option Nat
    | 0, _ => none
    | fuel + 1, j =>
      match matchCloseAt cs j with
      | some e => some e
      | none => go fuel (j + 1)

/-- The `while 1` loop over params of one element (`parse_syslog`, inner
loop). State: `pstart` (index of the space before the next param), `eend`
(index of the current closing-bracket candidate), `edata` (params so far).
Returns the params dict and the new `bstart` (one past the `]`). -/
def paramsLoop (bdata : List Char) :
    Nat → Nat → Nat → SParams → Except PErr (SParams × Nat)
  | 0, _, _, _ => .error .nonTermination
  | fuel + 1, pstart, eend, edata =>
    match Py.findInRange bdata '=' (pstart + 1) eend with
    | none => .error .valueError
    | some psep =>
      if (Py.slice bdata (pstart + 1) psep).isEmpty ∨
          (Py.slice bdata (pstart + 1) psep).length > 32 then
        .error .valueError
      else
        match bdata.get? (psep + 1) with
        | none => .error .indexError
        | some c =>
          if c ≠ '"' then .error .valueError
          else
            match closeDQuoteEnd bdata (psep + 2) with
            | none => .error .valueError
            | some pend =>
              match bdata.get? pend with
              | none => .error .indexError
              | some c2 =>
                if c2 = ' ' then
                  if pend > eend then
                    match Py.findFrom bdata ']' pend with
                    | none => .error .valueError
                    | some eend2 =>
                      paramsLoop bdata fuel pend eend2
                        (alSet (Py.slice bdata (pstart + 1) psep)
                          (Py.slice bdata (psep + 2) (pend - 1)) edata)
                  else
                    paramsLoop bdata fuel pend eend
                      (alSet (Py.slice bdata (pstart + 1) psep)
                        (Py.slice bdata (psep + 2) (pend - 1)) edata)
                else if c2 = ']' then
                  .ok (alSet (Py.slice bdata (pstart + 1) psep)
                    (Py.slice bdata (psep + 2) (pend - 1)) edata, pend + 1)
                else .error .valueError

/-- The `while 1` loop over structured-data elements (`parse_syslog`, outer
loop). For an element with no parameter the source computes `eid` and
`edata = None`, stores nothing, and re-enters the loop with `bstart`
unchanged — an infinite loop, modelled by recursing on the same position
until fuel runs out. -/
def elemsLoop (bdata : List Char) (blen : Nat) :
    Nat → Nat → SData → Except PErr (SData × Nat)
  | 0, _, _ => .error .nonTermination
  | fuel + 1, bstart, data =>
    match bdata.get? bstart with
    | none => .error .indexError
    | some c =>
      if c ≠ '[' then .error .valueError
      else
        match Py.findFrom bdata ']' bstart with
        | none => .error .valueError
        | some eend =>
          match Py.findInRange bdata ' ' bstart eend with
          | none => elemsLoop bdata blen fuel bstart data
          | some pstart =>
            match paramsLoop bdata (bdata.length + 1) pstart eend [] with
            | .error e => .error e
            | .ok (edata, bstart2) =>
              if bstart2 ≥ blen then
                .ok (alSet (Py.slice bdata (bstart + 1) pstart) edata data,
                  bstart2)
              else
                match bdata.get? bstart2 with
                | none => .error .indexError
                | some c2 =>
                  if c2 = ' ' then
                    .ok (alSet (Py.slice bdata (bstart + 1) pstart) edata data,
                      bstart2)
                  else
                    elemsLoop bdata blen fuel bstart2
                      (alSet (Py.slice bdata (bstart + 1) pstart) edata data)

/-- The common hostname/appname/procid/msgid check of `parse_syslog`:
`is_graph`, then length in `1..maxLen`, then `'-' ↦ None`. -/
def checkField (tok : List Char) (maxLen : Nat) :
    Except PErr (Option (List Char)) :=
  if ¬ is_graph tok then .error .valueError
  else if tok.isEmpty ∨ tok.length > maxLen then .error .valueError
  else .ok (if tok = ['-'] then none else some tok)

/-- The UTF-8 byte-order mark, as the three bytes the source compares
against. -/
def bomChars : List Char := ['\xEF', '\xBB', '\xBF']

/-- The header portion of `server.parse_syslog` (its "Parse pri" through
"Parse msgid" steps), over the space-split fields `bhead`. -/
def parseHeader (bhead : List (List Char)) : Except PErr SyslogHead := do
  let bcnt := bhead.length
  -- Parse pri.
  let pri := bhead.headD []
  match pri.get? 0 with
  | none => throw .indexError
  | some c0 =>
    if c0 ≠ '<' then throw .valueError
    else do
      match Py.findFrom pri '>' 0 with
      | none => throw .valueError
      | some e => do
        let prival ← match Py.pyInt (Py.slice pri 1 e) with
          | none => throw .valueError
          | some v => pure v
        -- Parse version.
        let version ← match Py.pyInt (pri.drop (e + 1)) with
          | none => throw .valueError
          | some v => pure v
        if bcnt ≤ 1 then throw .valueError
        else do
          -- Parse timestamp ('-' ↦ None; otherwise the source hands the token
          -- to dateutil, kept raw here).
          let timestamp := bhead.getD 1 []
          let tsField : Option (List Char) :=
            if timestamp = ['-'] then none else some timestamp
          if bcnt ≤ 2 then throw .valueError
          else do
            let hostField ← checkField (bhead.getD 2 []) 255
            if bcnt ≤ 3 then throw .valueError
            else do
              let appField ← checkField (bhead.getD 3 []) 48
              if bcnt ≤ 4 then throw .valueError
              else do
                let procField ← checkField (bhead.getD 4 []) 128
                if bcnt ≤ 5 then throw .valueError
                else do
                  let msgidField ← checkField (bhead.getD 5 []) 32
                  if bcnt ≤ 6 then throw .valueError
                  else
                    pure
                      { prival := prival
                        version := version
                        timestamp := tsField
                        hostname := hostField
                        appname := appField
                        procid := procField
                        msgid := msgidField }

/-- The structured-data and message portion of `server.parse_syslog`
(its "Parse structured-data" and "Parse msg" steps), over `bhead[6]`. -/
def parseBody (bdata : List Char) : Except PErr (SData × SyslogMsg) := do
  let blen := bdata.length
  let (data, bstart) ←
    if bdata = ['-'] then pure (([] : SData), 1)
    else elemsLoop bdata blen (blen + 1) 0 []
  if bstart ≥ blen then
    pure (data, ⟨false, []⟩)
  else
    match bdata.get? bstart with
    | none => throw .indexError
    | some c =>
      if c ≠ ' ' then throw .valueError
      else
        let msg := bdata.drop (bstart + 1)
        if msg.take 3 = bomChars then pure (data, ⟨true, msg.drop 3⟩)
        else pure (data, ⟨false, msg⟩)

/-- `server.parse_syslog`, embedded step for step from the source:
split the header fields, parse the header, then parse structured data
and message from the remainder. -/
def parse_syslog (entry : List Char) : Except PErr SyslogResult := do
  let bhead := Py.splitLimit ' ' 6 entry
  let head ← parseHeader bhead
  let (data, msg) ← parseBody (bhead.getD 6 [])
  pure (head, data, msg)

/-! ## Worker-name validation (`process.py`) -/

/-- Python 2 `\w` in the default (non-unicode, C-locale) mode:
`[a-zA-Z0-9_]`. Note that it contains the underscore, although the
regex's own comment reads "alphanumeric followed by
alphanumeric/underscore". -/
def isWordChar (c : Char) : Bool :=
  c.isAlphanum || c = '_'

/-- One segment of `_re_proc_fullname`: `[\w][\w_]*` (and `[\w_]` equals
`[\w]`, so a segment is a non-empty run of word characters). -/
def segMatch (seg : List Char) : Bool :=
  match seg with
  | [] => false
  | c :: rest => isWordChar c && rest.all isWordChar

/-- `_re_proc_fullname.match`: dot-separated non-empty segments. -/
def matchFullname (cs : List Char) : Bool :=
  (Py.splitAll '.' cs).all segMatch

/-- `process.validate_process_name`: `true` iff the name is accepted
(the source raises `ValueError` on a non-match). -/
def validate_process_name (fullname : String) : Bool :=
  matchFullname fullname.data

/-! ## Worker exit-status decoding (`process.ProcessProtocol.processEnded`) -/

/-- The exit code computed by `processEnded` from the 16-bit OS status
word: `status >> 8 if status > 0xFF else -(status & 0xFF)`. -/
def processEnded_exit (status : Nat) : Int :=
  if status > 0xFF then ((status >>> 8 : Nat) : Int)
  else -((status % 256 : Nat) : Int)

/-! ## The process server (`server.ProcessServer`)

State-bearing methods are embedded as pure transformers
`ServerState → … → Outcome α`: the returned state reflects every mutation
the source performs before returning or raising, `sent` records the
outbound `callRemote` invocations in program order, and `result` is the
returned value or the exception propagated to the caller. Filesystem and
database side effects (scratch directories, the sqlite Event Sink, pid
files) are outside the model and noted where they occur; the sqlite
autoincrement id of `new_process` is modelled by the `nextId` counter.
Remote references are modelled as opaque numeric handles that are live
(`DeadReferenceError` handling is transport behaviour the claims do not
touch). -/

/-- Process states (`server.STATE_*`). -/
inductive PState
  | notRunning
  | queued
  | zombie
  | starting
  | working
  | finished
  | terminating
  | terminated
deriving DecidableEq

/-- `server.ProcessInstance` (plus its "temporary" attributes `_token`,
`_finished`, `_terminated`, present iff `some`). -/
structure ProcessInstance where
  id : Nat
  name : String
  state : PState
  started : ℚ
  registered : Option ℚ
  updated : Option ℚ
  pid : Option Nat
  progress : ℚ
  ref : Option Nat
  token : Option String
  finTime : Option ℚ
  termTime : Option ℚ
deriving DecidableEq

/-- `ProcessInstance.__init__(id, name, started)`. -/
def ProcessInstance.init (id : Nat) (name : String) (started : ℚ) :
    ProcessInstance :=
  { id := id, name := name, state := .starting, started := started,
    registered := none, updated := none, pid := none, progress := 0,
    ref := none, token := none, finTime := none, termTime := none }

/-- `server.ProcessInfo`. `instId` models `_inst` (the source only ever
assigns `None` to it after construction); `infoState` models `_state`,
which no code in the source ever sets. -/
structure ProcessInfo where
  name : String
  title : String
  desc : String
  instId : Option Nat
  infoState : Option PState
deriving DecidableEq

/-- A key of the per-monitor-type dict `procs_mon[t]`: a process instance
id (int), a process name (str), or the wildcard `'*'`. -/
inductive MonKey
  | inst (id : Nat)
  | pname (n : String)
  | star
deriving DecidableEq

/-- An outbound `callRemote` recorded by the model. -/
inductive Sent
  /-- `monitor_update(name, id, progress[, buffers])` (buffers only for
  the realtime fan-out of `remote_update_process`). -/
  | monUpdate (ref : Nat) (name : String) (id : Nat) (progress : ℚ)
      (stdoutBuf stderrBuf stdlogBuf : Option (List Char))
  /-- `set_update_interval(interval)` to a worker runtime. -/
  | setInterval (ref : Nat) (interval : ℚ)
  /-- `monitor_{state}(name, id[, timestamp])` to a monitor. -/
  | stateMsg (ref : Nat) (st : PState) (name : String) (id : Nat)
      (time : Option ℚ)
  /-- `terminate()` to a worker runtime. -/
  | termCmd (ref : Nat)
deriving DecidableEq

/-- Exceptions raised by the embedded server methods. -/
inductive SrvErr
  /-- `process.ProcessError` (`run_process` when `proc_info._state` is
  set). -/
  | processError
  /-- `process.TerminateProcess`. -/
  | terminateProcess
  /-- `process.NotRegistered`. -/
  | notRegistered
  /-- `process.InvalidProcess` (unknown worker). -/
  | invalidProcess
  /-- `ValueError` raised by an argument check. -/
  | valueError
  /-- Python `KeyError` (missing dict key, e.g. `process_buffers[3]` or a
  missing structured-data element). -/
  | keyError
  /-- Python `UnboundLocalError`: the `AlreadyRunning` branches of
  `register_process` (lines 1638–1643 and 1666–1671) read `proc_id`
  before any assignment to it, so the intended `AlreadyRunning` is
  preempted by this error. -/
  | unboundLocal
  /-- Python `TypeError`: line 1680 `print "Registered process %s:%i."
  (process_name, proc_id)` calls a `str`; raised on every successful
  registration when server debugging is off. -/
  | typeError
  /-- An exception escaping the log-parsing block of
  `remote_update_process`: a `parse_syslog` failure or the `ValueError`
  of a failing `float(...)`. -/
  | parseFailure (e : PErr)
  | floatError
deriving DecidableEq

/-- The mutable fields of `server.ProcessServer` that the embedded
methods touch. `procsStart`, `procsReg`, `procsFin` and `procsTerm` hold
instance ids; the authoritative instance record lives in `procsInst`
(the source shares one mutable object between these dicts). -/
structure ServerState where
  debug : Bool
  procsInfo : List (String × ProcessInfo)
  procsId : List (String × Nat)
  procsInst : List (Nat × ProcessInstance)
  procsStart : List ((String × String) × Nat)
  procsReg : List Nat
  procsFin : List Nat
  procsTerm : List Nat
  monProgress : List (MonKey × List Nat)
  monRealtime : List (MonKey × List Nat)
  nextId : Nat
deriving DecidableEq

/-- Result of one embedded method call: final state, outbound calls in
order, and the returned value or raised exception. -/
structure Outcome (α : Type) where
  state : ServerState
  sent : List Sent
  result : Except SrvErr α

/-- `_start_term`: terminate starting processes after 5 s. -/
def start_term : ℚ := 5

/-- `_work_term`: terminate working processes after 30 s. -/
def work_term : ℚ := 30

/-- `_proc_normal`: normal update interval, 1 s. -/
def proc_normal : ℚ := 1

/-- `_proc_stream`: real-time update interval, 200 ms. -/
def proc_stream : ℚ := mkRat 1 5

/-- The refs subscribed under key `k` (`mon_procs[k]`, empty when the key
is absent; the source's fan-outs iterate nothing in either case). -/
def monRefs (m : List (MonKey × List Nat)) (k : MonKey) : List Nat :=
  (alGet k m).getD []

/-- `ProcessServer.notify_instance_state`: walk the keys `(id, name, '*')`
and for each monitor type send `monitor_{state}(*args)` to every
subscribed ref. The source iterates `procs_mon.iteritems()` (arbitrary
dict order); the model fixes PROGRESS before REALTIME. Dead-reference
cleanup is transport behaviour outside the model. -/
def notify_instance_state (s : ServerState) (st : PState) (id : Nat)
    (name : String) (time : Option ℚ) : List Sent :=
  ([MonKey.inst id, MonKey.pname name, MonKey.star]).flatMap fun k =>
    (monRefs s.monProgress k).map (fun r => Sent.stateMsg r st name id time)
      ++ (monRefs s.monRealtime k).map (fun r => Sent.stateMsg r st name id time)

/-- `ProcessServer.clean_process`: drop the instance's references from
every index and monitor dict. (The scratch-directory deletion the source
schedules afterwards is a filesystem effect outside the model.) -/
def clean_process (s : ServerState) (inst : ProcessInstance) : ServerState :=
  let s :=
    match alGet inst.name s.procsInfo with
    | some info =>
        { s with procsInfo :=
            alSet inst.name { info with instId := none } s.procsInfo }
    | none => s
  let s :=
    if alGet inst.name s.procsId = some inst.id then
      { s with procsId := alDel inst.name s.procsId }
    else s
  let s := { s with procsInst := alDel inst.id s.procsInst }
  let s :=
    match inst.token with
    | some t => { s with procsStart := alDel (inst.name, t) s.procsStart }
    | none => s
  { s with
    procsReg := s.procsReg.erase inst.id,
    procsFin := s.procsFin.erase inst.id,
    procsTerm := s.procsTerm.erase inst.id,
    monProgress := alDel (.inst inst.id) s.monProgress,
    monRealtime := alDel (.inst inst.id) s.monRealtime }

/-- `ProcessServer.run_process(name, args, monitor, debug)`. `tok` stands
for the `os.urandom(12).encode('hex')` token and `now` for `time.time()`
inside `new_process`. The argument-escaping, scratch-directory creation
and `spawnProcess` steps touch only the OS, not the server state, and are
omitted; `procMon` is the optional `(monitor_type_is_realtime, ref)`
pair. -/
def run_process (s : ServerState) (name : String) (tok : String)
    (procMon : Option (Bool × Nat)) (now : ℚ) : Outcome Nat :=
  match alGet name s.procsInfo with
  | none => ⟨s, [], .error .keyError⟩
  | some info =>
    if info.infoState.isSome then ⟨s, [], .error .processError⟩
    else
      -- proc_inst = new_process(name); proc_inst._token = tok
      let pid := s.nextId
      let inst := { ProcessInstance.init pid name now with token := some tok }
      let s :=
        { s with
          nextId := pid + 1,
          procsId := alSet name pid s.procsId,
          procsInst := alSet pid inst s.procsInst,
          procsStart := alSet (name, tok) pid s.procsStart,
          monProgress := alSet (.inst pid) [] s.monProgress,
          monRealtime := alSet (.inst pid) [] s.monRealtime }
      let s :=
        match procMon with
        | some (isRt, mref) =>
          if isRt then
            { s with monRealtime := (alSet (.inst pid)
                (setInsert mref (monRefs s.monRealtime (.inst pid))) s.monRealtime) }
          else
            { s with monProgress := (alSet (.inst pid)
                (setInsert mref (monRefs s.monProgress (.inst pid))) s.monProgress) }
        | none => s
      ⟨s, notify_instance_state s .starting pid name (some now), .ok pid⟩

/-- `ProcessServer.check_process`: `True` when the name is known;
otherwise validate the name (raising on a grammar violation) and return
`False`. -/
def check_process (s : ServerState) (name : String) : Except SrvErr Bool :=
  if (alGet name s.procsInfo).isSome then .ok true
  else if validate_process_name name then .ok false
  else .error .valueError

/-- `ProcessServer.remote_run_process`: argument checks, existence check,
then `run_process`; a non-`ProcessError` failure of `run_process` cleans
the instance registered under the name before re-raising. -/
def remote_run_process (s : ServerState) (name : String) (tok : String)
    (procMon : Option (Bool × Nat)) (now : ℚ) : Outcome Nat :=
  if name = "" then ⟨s, [], .error .valueError⟩
  else
    match check_process s name with
    | .error e => ⟨s, [], .error e⟩
    | .ok false => ⟨s, [], .error .invalidProcess⟩
    | .ok true =>
      let o := run_process s name tok procMon now
      match o.result with
      | .ok _ => o
      | .error e =>
        if e = .processError then o
        else
          match alGet name o.state.procsId with
          | some pid2 =>
            match alGet pid2 o.state.procsInst with
            | some inst2 => ⟨clean_process o.state inst2, o.sent, .error e⟩
            | none => ⟨o.state, o.sent, .error .keyError⟩
          | none => o

/-- The tail of `register_process` shared by the token and no-token
branches (source lines 1673–1700): move the instance to WORKING, record
pid/ref/registered, add it to `procs_reg` — and then, with debugging off,
raise the line-1680 `TypeError` (the malformed `print` statement), which
skips the realtime-interval call, the WORKING notification and the
return. -/
def finishRegistration (s : ServerState) (inst : ProcessInstance)
    (pid : Nat) (name : String) (ppid : Nat) (ref : Nat) (now : ℚ) :
    Outcome Nat :=
  let inst :=
    { inst with
      state := .working, pid := some ppid, ref := some ref,
      registered := some now }
  let s :=
    { s with procsInst := alSet pid inst s.procsInst, procsReg := setInsert pid s.procsReg }
  if ¬ s.debug then ⟨s, [], .error .typeError⟩
  else
    let rtSends :=
      if monRefs s.monRealtime (.inst pid) ≠ [] ∨
          monRefs s.monRealtime (.pname name) ≠ [] then
        [Sent.setInterval ref proc_stream]
      else []
    ⟨s, rtSends ++ notify_instance_state s .working pid name (some now),
      .ok pid⟩

/-- `ProcessServer.register_process(name, pid, ref, token)`. With a token:
a tracked `(name, token)` pair registers the instance found through
`procs_id[name]`; an untracked pair raises `UnboundLocalError` when the
name is tracked (the intended `AlreadyRunning`, preempted by the unbound
`proc_id`) and `TerminateProcess` otherwise. Without a token: an untracked
name is recorded fresh (`new_process` at `nextId`, `now` as its start
time); a tracked name raises the same `UnboundLocalError`. -/
def register_process (s : ServerState) (name : String) (ppid : Nat)
    (ref : Nat) (tok : Option String) (now : ℚ) : Outcome Nat :=
  match tok with
  | some t =>
    if (alGet (name, t) s.procsStart).isSome then
      match alGet name s.procsId with
      | none => ⟨s, [], .error .keyError⟩
      | some pid =>
        match alGet pid s.procsInst with
        | none => ⟨s, [], .error .keyError⟩
        | some inst =>
          let s := { s with procsStart := alDel (name, t) s.procsStart }
          let inst := { inst with token := none }
          finishRegistration s inst pid name ppid ref now
    else if (alGet name s.procsId).isSome then
      ⟨s, [], .error .unboundLocal⟩
    else
      ⟨s, [], .error .terminateProcess⟩
  | none =>
    match alGet name s.procsId with
    | some _ => ⟨s, [], .error .unboundLocal⟩
    | none =>
      let pid := s.nextId
      let inst := ProcessInstance.init pid name now
      let s :=
        { s with
          nextId := pid + 1,
          procsId := alSet name pid s.procsId,
          procsInst := alSet pid inst s.procsInst,
          monProgress := alSet (.inst pid) [] s.monProgress,
          monRealtime := alSet (.inst pid) [] s.monRealtime }
      finishRegistration s inst pid name ppid ref now

/-- Worker output buffers (`process_buffers`): keys 1 (stdout), 2
(stderr), 3 (stdlog); `none` models an absent key. -/
structure Buffers where
  b1 : Option (List Char)
  b2 : Option (List Char)
  b3 : Option (List Char)
deriving DecidableEq

/-- The element id `status@ridersdiscount` the update handler extracts. -/
def statusId : List Char := ("status@ridersdiscount").data

/-- The `progress` parameter name. -/
def progressKey : List Char := ("progress").data

/-- The log-parsing block of `remote_update_process` on a non-empty
stdlog buffer:
`head, data, msg = parse_syslog(log.splitlines()[-1])` followed by
`progress = float(data['status@ridersdiscount']['progress'])`. -/
def extract_progress (log : List Char) : Except SrvErr ℚ :=
  match (Py.splitlines log).getLast? with
  | none => .error .keyError
  | some line =>
    match parse_syslog line with
    | .error e => .error (.parseFailure e)
    | .ok (_, data, _) =>
      match alGet statusId data with
      | none => .error .keyError
      | some ps =>
        match alGet progressKey ps with
        | none => .error .keyError
        | some v =>
          match Py.pyFloat v with
          | none => .error .floatError
          | some p => .ok p

/-- `ProcessServer.remote_update_process(id, buffers)`: reject unknown
ids with `NotRegistered`; try to parse the last stdlog line and on
success refresh `updated` and `progress`; then — parse error or not —
forward the raw buffers to the REALTIME monitors of the instance id and
of the worker name; finally re-raise the parse failure if there was
one. -/
def remote_update_process (s : ServerState) (id : Nat) (bufs : Buffers)
    (now : ℚ) : Outcome Unit :=
  if ¬ (id ∈ s.procsReg) then ⟨s, [], .error .notRegistered⟩
  else
    match alGet id s.procsInst with
    | none => ⟨s, [], .error .keyError⟩
    | some inst =>
      let attempt : Except SrvErr (Option ℚ) :=
        match bufs.b3 with
        | none => .error .keyError
        | some log =>
          if log.isEmpty then .ok none
          else (extract_progress log).map some
      let inst2 :=
        match attempt with
        | .ok (some p) => { inst with updated := some now, progress := p }
        | _ => inst
      let s2 := { s with procsInst := alSet id inst2 s.procsInst }
      let sends :=
        (monRefs s2.monRealtime (.inst id)).map
          (fun r => Sent.monUpdate r inst.name id inst2.progress bufs.b1 bufs.b2 bufs.b3)
          ++ (monRefs s2.monRealtime (.pname inst.name)).map
            (fun r => Sent.monUpdate r inst.name id inst2.progress bufs.b1 bufs.b2 bufs.b3)
      match attempt with
      | .error e => ⟨s2, sends, .error e⟩
      | .ok _ => ⟨s2, sends, .ok ()⟩

/-- `ProcessServer.terminate_process(inst)` (pure parts): set
TERMINATING and `_terminated`, send `terminate()` to a live remote
reference, then — with a known pid — record the instance in `procs_term`
and notify TERMINATING; without one the source consults the on-disk pid
file `{var_dir}/processes/{id}/process.pid`, modelled here as absent, so
the instance is declared TERMINATED and cleaned. (The Event Sink write
recording `-SIGTERM` is a database effect outside the model.) -/
def terminate_process (s : ServerState) (inst0 : ProcessInstance)
    (now : ℚ) : ServerState × List Sent :=
  let inst := { inst0 with state := .terminating, termTime := some now }
  let s := { s with procsInst := alSet inst.id inst s.procsInst }
  let termSends :=
    match inst.ref with
    | some r => [Sent.termCmd r]
    | none => []
  match inst.pid with
  | some _ =>
    let s := { s with procsTerm := setInsert inst.id s.procsTerm }
    (s, termSends ++ notify_instance_state s .terminating inst.id inst.name (some now))
  | none =>
    let sends := notify_instance_state s .terminated inst.id inst.name none
    (clean_process s inst, termSends ++ sends)

/-- The heartbeat base `proc_inst.updated or proc_inst.registered` of
`monitor_working_processes` (Python `or`: `0.0` and `None` fall
through); `none` means both were falsy-`None` and the subtraction would
raise `TypeError`. -/
def heartbeatBase (inst : ProcessInstance) : Option ℚ :=
  match inst.updated with
  | some u => if u = 0 then inst.registered else some u
  | none => inst.registered

/-- One iteration of the terminate loop of
`monitor_working_processes`: look the overdue instance up and terminate
it, accumulating the outbound calls. -/
def workTermStep (now : ℚ) (acc : ServerState × List Sent) (id : Nat) :
    ServerState × List Sent :=
  match alGet id acc.1.procsInst with
  | some inst =>
    let r := terminate_process acc.1 inst now
    (r.1, acc.2 ++ r.2)
  | none => acc

/-- `ProcessServer.monitor_working_processes` (one tick at time `now`):
collect every registered instance whose time since last
update/registration strictly exceeds `work_term`, then terminate each.
`none` models the `TypeError` the source raises while scanning if a
registered instance has neither timestamp (instances registered through
`register_process` always have `registered` set). -/
def monitor_working_processes (s : ServerState) (now : ℚ) :
    Option (ServerState × List Sent) :=
  match overdueList s.procsReg with
  | none => none
  | some terminate => some (terminate.foldl (workTermStep now) (s, []))
where
  overdueList : List Nat → Option (List Nat)
    | [] => some []
    | id :: rest =>
      match alGet id s.procsInst with
      | none => (overdueList rest)
      | some inst =>
        match heartbeatBase inst with
        | none => none
        | some base =>
          if Py.ratSub now base > work_term then
            (overdueList rest).map (fun l => id :: l)
          else overdueList rest

/-! ## Concrete states used by the closed theorems -/

/-- A catalogue entry for the worker `test.wait`. -/
def sampleInfo : ProcessInfo :=
  { name := "test.wait", title := "Test", desc := "", instId := none,
    infoState := none }

/-- A freshly started server (debug on) knowing `test.wait`; the Event
Sink will hand out id 17 next. -/
def state0 : ServerState :=
  { debug := true, procsInfo := [("test.wait", sampleInfo)], procsId := [],
    procsInst := [], procsStart := [], procsReg := [], procsFin := [],
    procsTerm := [], monProgress := [(.star, [])], monRealtime := [],
    nextId := 17 }

/-- Instance 17 of `test.wait`, STARTING with token `tokA`. -/
def instStart : ProcessInstance :=
  { ProcessInstance.init 17 "test.wait" 0 with token := some "tokA" }

/-- `state0` right after `run_process` created instance 17. -/
def stateStart : ServerState :=
  { debug := true, procsInfo := [("test.wait", sampleInfo)],
    procsId := [("test.wait", 17)], procsInst := [(17, instStart)],
    procsStart := [(("test.wait", "tokA"), 17)], procsReg := [],
    procsFin := [], procsTerm := [],
    monProgress := [(.star, []), (.inst 17, [])],
    monRealtime := [(.inst 17, [])], nextId := 18 }

/-- Instance 17, registered (WORKING) at t = 2, never updated. -/
def instReg : ProcessInstance :=
  { id := 17, name := "test.wait", state := .working, started := 0,
    registered := some 2, updated := none, pid := some 555, progress := 0,
    ref := some 9, token := none, finTime := none, termTime := none }

/-- Server with instance 17 registered and a REALTIME subscriber (ref 42)
on the instance. -/
def stateReg : ServerState :=
  { debug := true, procsInfo := [("test.wait", sampleInfo)],
    procsId := [("test.wait", 17)], procsInst := [(17, instReg)],
    procsStart := [], procsReg := [17], procsFin := [], procsTerm := [],
    monProgress := [(.star, [])], monRealtime := [(.inst 17, [42])],
    nextId := 18 }

/-- An update whose stdlog line reports progress 0.5. -/
def bufsHalf : Buffers :=
  { b1 := some ("out").data, b2 := none,
    b3 := some ("<134>1 - - - - - [status@ridersdiscount progress=\"0.5\"]").data }

/-- An update whose stdlog line parses but lacks the status element. -/
def bufsBadElem : Buffers :=
  { b1 := some ("out").data, b2 := none,
    b3 := some ("<134>1 - - - - - [other progress=\"0.5\"]").data }

/-- An update whose stdlog line reports progress 2.0 (outside `[0,1]`). -/
def bufsTwo : Buffers :=
  { b1 := none, b2 := none,
    b3 := some ("<134>1 - - - - - [status@ridersdiscount progress=\"2.0\"]").data }

/-- An update carrying only stdout/stderr (no stdlog key at all). -/
def bufsNoLog : Buffers :=
  { b1 := some ("out").data, b2 := some ("err").data, b3 := none }

/-- An update with an empty stdlog buffer. -/
def bufsEmptyLog : Buffers :=
  { b1 := some ("out").data, b2 := none, b3 := some [] }

/-! ## Association-list lemmas -/

theorem alGet_alSet_self {α β : Type} [DecidableEq α] (k : α) (v : β)
    (l : List (α × β)) : alGet k (alSet k v l) = some v := by
  induction l with
  | nil => simp [alSet, alGet]
  | cons h t ih =>
    obtain ⟨k2, v2⟩ := h
    by_cases hk : k2 = k <;> simp [alSet, alGet, hk, ih]

theorem alGet_alSet_ne {α β : Type} [DecidableEq α] {k k2 : α} (v : β)
    (l : List (α × β)) (h : k2 ≠ k) :
    alGet k (alSet k2 v l) = alGet k l := by
  induction l with
  | nil => simp [alSet, alGet, h]
  | cons p t ih =>
    obtain ⟨k3, v3⟩ := p
    by_cases hk : k3 = k2
    · subst hk
      simp [alSet, alGet, h, ih]
    · by_cases hk3 : k3 = k
      · subst hk3
        simp [alSet, alGet, hk]
      · simp [alSet, alGet, hk, hk3, ih]

theorem alGet_alDel_ne {α β : Type} [DecidableEq α] {k k2 : α}
    (l : List (α × β)) (h : k2 ≠ k) :
    alGet k (alDel k2 l) = alGet k l := by
  induction l with
  | nil => simp [alDel, alGet]
  | cons p t ih =>
    obtain ⟨k3, v3⟩ := p
    by_cases hk : k3 = k2
    · subst hk
      simp [alDel, alGet, h, ih]
    · by_cases hk3 : k3 = k
      · subst hk3
        simp [alDel, alGet, hk]
      · simp [alDel, alGet, hk, hk3, ih]

/-- Re-assigning the value already present leaves the dict unchanged. -/
theorem alSet_self_of_get {α β : Type} [DecidableEq α] {k : α} {v : β}
    {l : List (α × β)} (h : alGet k l = some v) : alSet k v l = l := by
  induction l with
  | nil => simp [alGet] at h
  | cons p t ih =>
    obtain ⟨k2, v2⟩ := p
    by_cases hk : k2 = k
    · subst hk
      simp [alGet] at h
      simp [alSet, h]
    · simp [alGet, hk] at h
      simp [alSet, hk, ih h]

theorem alGet_mem {α β : Type} [DecidableEq α] {k : α} {v : β}
    {l : List (α × β)} (h : alGet k l = some v) : (k, v) ∈ l := by
  induction l with
  | nil => simp [alGet] at h
  | cons p t ih =>
    obtain ⟨k2, v2⟩ := p
    by_cases hk : k2 = k
    · subst hk
      simp [alGet] at h
      simp [h]
    · simp [alGet, hk] at h
      simp [ih h]

theorem mem_alSet {α β : Type} [DecidableEq α] {k : α} {v : β}
    {l : List (α × β)} {p : α × β} (h : p ∈ alSet k v l) :
    p = (k, v) ∨ p ∈ l := by
  induction l with
  | nil => simp [alSet] at h; simp [h]
  | cons q t ih =>
    obtain ⟨k2, v2⟩ := q
    by_cases hk : k2 = k
    · subst hk
      simp [alSet] at h
      rcases h with h | h
      · simp [h]
      · simp [h]
    · simp [alSet, hk] at h
      rcases h with h | h
      · simp [h]
      · rcases ih h with h2 | h2
        · simp [h2]
        · simp [h2]

theorem mem_alDel {α β : Type} [DecidableEq α] {k : α}
    {l : List (α × β)} {p : α × β} (h : p ∈ alDel k l) : p ∈ l := by
  induction l with
  | nil => simp [alDel] at h
  | cons q t ih =>
    obtain ⟨k2, v2⟩ := q
    by_cases hk : k2 = k <;> simp [alDel, hk] at h
    · simp [h]
    · rcases h with h | h
      · simp [h]
      · simp [ih h]

theorem mem_setInsert_of_mem {α : Type} [DecidableEq α] {k k2 : α}
    {l : List α} (h : k ∈ l) : k ∈ setInsert k2 l := by
  by_cases hm : k2 ∈ l <;> simp [setInsert, hm, h]

theorem mem_setInsert_self {α : Type} [DecidableEq α] (k : α)
    (l : List α) : k ∈ setInsert k l := by
  by_cases hm : k ∈ l <;> simp [setInsert, hm]

/-! ## The work-deadline check fires strictly after `work_term` -/

/-- The instance table is keyed by instance id (true of every state the
source builds: `procs_inst[proc_inst.id] = proc_inst`). -/
def InstKeyed (s : ServerState) : Prop :=
  ∀ p ∈ s.procsInst, (p.2).id = p.1

instance (s : ServerState) : Decidable (InstKeyed s) :=
  inferInstanceAs (Decidable (∀ p ∈ s.procsInst, (p.2).id = p.1))

/-- Instance `id` has been moved to TERMINATING and recorded among the
terminating processes. -/
def TermStable (id : Nat) (s : ServerState) : Prop :=
  ∃ i, alGet id s.procsInst = some i ∧ i.id = id ∧
    i.state = .terminating ∧ i.pid.isSome ∧ id ∈ s.procsTerm

theorem clean_process_procsInst (s : ServerState)
    (inst : ProcessInstance) :
    (clean_process s inst).procsInst = alDel inst.id s.procsInst := by
  cases halg : alGet inst.name s.procsInfo <;> cases htok : inst.token <;>
    simp [clean_process, halg, htok, apply_ite]

theorem clean_process_procsTerm (s : ServerState)
    (inst : ProcessInstance) :
    (clean_process s inst).procsTerm = s.procsTerm.erase inst.id := by
  cases halg : alGet inst.name s.procsInfo <;> cases htok : inst.token <;>
    simp [clean_process, halg, htok, apply_ite]

theorem terminate_process_procsInst_ne (s : ServerState)
    (inst2 : ProcessInstance) (now : ℚ) {id : Nat} (h : inst2.id ≠ id) :
    alGet id (terminate_process s inst2 now).1.procsInst =
      alGet id s.procsInst := by
  cases hp : inst2.pid <;>
    simp [terminate_process, hp, clean_process_procsInst,
      alGet_alDel_ne _ h, alGet_alSet_ne _ _ h]

theorem terminate_process_procsTerm_mem (s : ServerState)
    (inst2 : ProcessInstance) (now : ℚ) {id : Nat} (h : inst2.id ≠ id)
    (hm : id ∈ s.procsTerm) :
    id ∈ (terminate_process s inst2 now).1.procsTerm := by
  cases hp : inst2.pid with
  | none =>
    simp [terminate_process, hp, clean_process_procsTerm]
    exact (List.mem_erase_of_ne (fun hh => h hh.symm)).mpr hm
  | some p =>
    simp [terminate_process, hp]
    exact mem_setInsert_of_mem hm

theorem terminate_process_instKeyed (s : ServerState)
    (inst2 : ProcessInstance) (now : ℚ) (hwk : InstKeyed s) :
    InstKeyed (terminate_process s inst2 now).1 := by
  cases hp : inst2.pid with
  | none =>
    intro p hp2
    simp only [terminate_process, hp, clean_process_procsInst] at hp2
    rcases mem_alSet (mem_alDel hp2) with h | h
    · simp [h]
    · exact hwk p h
  | some q =>
    intro p hp2
    simp only [terminate_process, hp] at hp2
    rcases mem_alSet hp2 with h | h
    · simp [h]
    · exact hwk p h

theorem terminate_process_establishes (s : ServerState)
    (inst : ProcessInstance) (now : ℚ) (id : Nat) (hid : inst.id = id)
    (hpid : inst.pid.isSome) :
    TermStable id (terminate_process s inst now).1 := by
  subst hid
  cases hp : inst.pid with
  | none => rw [hp] at hpid; simp at hpid
  | some p =>
    refine ⟨{ inst with state := .terminating, termTime := some now },
      ?_, rfl, rfl, ?_, ?_⟩
    · simp [terminate_process, hp, alGet_alSet_self]
    · exact hpid
    · simp [terminate_process, hp]
      exact mem_setInsert_self inst.id s.procsTerm

theorem workTermStep_instKeyed (now : ℚ) (acc : ServerState × List Sent)
    (id2 : Nat) (hwk : InstKeyed acc.1) :
    InstKeyed (workTermStep now acc id2).1 := by
  cases hg : alGet id2 acc.1.procsInst with
  | none => simpa [workTermStep, hg] using hwk
  | some inst2 =>
    simp only [workTermStep, hg]
    exact terminate_process_instKeyed _ _ _ hwk

theorem workTermStep_termStable (now : ℚ) (acc : ServerState × List Sent)
    (id2 id : Nat) (hwk : InstKeyed acc.1) (h : TermStable id acc.1) :
    TermStable id (workTermStep now acc id2).1 := by
  cases hg : alGet id2 acc.1.procsInst with
  | none => simpa [workTermStep, hg] using h
  | some inst2 =>
    simp only [workTermStep, hg]
    have hkey : inst2.id = id2 := hwk _ (alGet_mem hg)
    obtain ⟨i, hi, hiid, hist, hipid, hiterm⟩ := h
    by_cases hideq : id2 = id
    · subst hideq
      have he : inst2 = i := by rw [hg] at hi; exact Option.some_inj.mp hi
      subst he
      exact terminate_process_establishes _ _ _ _ hkey hipid
    · have hne : inst2.id ≠ id := by rw [hkey]; exact hideq
      exact ⟨i, by rw [terminate_process_procsInst_ne _ _ _ hne]; exact hi,
        hiid, hist, hipid, terminate_process_procsTerm_mem _ _ _ hne hiterm⟩

theorem workTermStep_frame (now : ℚ) (acc : ServerState × List Sent)
    (id2 id : Nat) (hwk : InstKeyed acc.1) (hne : id2 ≠ id) :
    alGet id (workTermStep now acc id2).1.procsInst =
      alGet id acc.1.procsInst := by
  cases hg : alGet id2 acc.1.procsInst with
  | none => simp [workTermStep, hg]
  | some inst2 =>
    simp only [workTermStep, hg]
    exact terminate_process_procsInst_ne _ _ _ (by
      rw [hwk _ (alGet_mem hg)]; exact hne)

/-- After folding the terminate loop over a list containing `id`, when
the entry at `id` carried a pid, the instance has been terminated. -/
theorem fold_termStable (now : ℚ) (id : Nat) :
    ∀ (l : List Nat) (acc : ServerState × List Sent),
      InstKeyed acc.1 →
      ((∃ i, alGet id acc.1.procsInst = some i ∧ i.pid.isSome) → id ∈ l →
        TermStable id (l.foldl (workTermStep now) acc).1) ∧
      (TermStable id acc.1 →
        TermStable id (l.foldl (workTermStep now) acc).1) := by
  intro l
  induction l with
  | nil =>
    intro acc hwk
    exact ⟨fun _ h => absurd h (List.not_mem_nil id), fun h => h⟩
  | cons id2 rest ih =>
    intro acc hwk
    have hwk2 : InstKeyed (workTermStep now acc id2).1 :=
      workTermStep_instKeyed now acc id2 hwk
    constructor
    · rintro ⟨i, hi, hpid⟩ hmem
      by_cases hideq : id2 = id
      · subst hideq
        have hst : TermStable id2 (workTermStep now acc id2).1 := by
          have hkey : i.id = id2 := hwk _ (alGet_mem hi)
          simp only [workTermStep, hi]
          exact terminate_process_establishes _ _ _ _ hkey hpid
        exact (ih _ hwk2).2 hst
      · have hmem2 : id ∈ rest := by
          rcases List.mem_cons.mp hmem with h | h
          · exact absurd h.symm hideq
          · exact h
        refine (ih _ hwk2).1 ⟨i, ?_, hpid⟩ hmem2
        rw [workTermStep_frame now acc id2 id hwk hideq]
        exact hi
    · intro hst
      exact (ih _ hwk2).2 (workTermStep_termStable now acc id2 id hwk hst)

/-- Every registered instance whose heartbeat is strictly overdue shows
up in the overdue list the scan computes. -/
theorem overdueList_mem (s : ServerState) (now : ℚ) :
    ∀ (l : List Nat) (ol : List Nat),
      monitor_working_processes.overdueList s now l = some ol →
      ∀ id inst, id ∈ l → alGet id s.procsInst = some inst →
        (∃ b, heartbeatBase inst = some b ∧ Py.ratSub now b > work_term) →
        id ∈ ol := by
  intro l
  induction l with
  | nil => intro ol _ id inst h; exact absurd h (List.not_mem_nil id)
  | cons id2 rest ih =>
    intro ol hol id inst hmem hinst hover
    by_cases hideq : id2 = id
    · subst hideq
      rw [monitor_working_processes.overdueList] at hol
      rw [hinst] at hol
      simp only [] at hol
      obtain ⟨b, hb, hgt⟩ := hover
      rw [hb] at hol
      simp only [hgt, if_pos] at hol
      match hrest : monitor_working_processes.overdueList s now rest with
      | none => rw [hrest] at hol; simp at hol
      | some ol2 =>
        rw [hrest] at hol
        simp at hol
        simp [← hol]
    · have hmem2 : id ∈ rest := by
        rcases List.mem_cons.mp hmem with h | h
        · exact absurd h.symm hideq
        · exact h
      rw [monitor_working_processes.overdueList] at hol
      match hg : alGet id2 s.procsInst with
      | none =>
        rw [hg] at hol
        exact ih ol hol id inst hmem2 hinst hover
      | some inst2 =>
        rw [hg] at hol
        simp only [] at hol
        match hb2 : heartbeatBase inst2 with
        | none => rw [hb2] at hol; simp at hol
        | some b2 =>
          rw [hb2] at hol
          by_cases hgt2 : Py.ratSub now b2 > work_term
          · simp only [hgt2, if_pos] at hol
            match hrest : monitor_working_processes.overdueList s now rest with
            | none => rw [hrest] at hol; simp at hol
            | some ol2 =>
              rw [hrest] at hol
              simp at hol
              have := ih ol2 hrest id inst hmem2 hinst hover
              simp [← hol, this]
          · simp only [hgt2, if_neg, not_false_iff] at hol
            exact ih ol hol id inst hmem2 hinst hover

/-- The work-deadline tick terminates a registered instance whose
heartbeat is strictly more than `work_term` old. -/
theorem work_deadline_fires (s : ServerState) (now : ℚ) (id : Nat)
    (inst : ProcessInstance) (r : ServerState × List Sent)
    (hwk : InstKeyed s) (hreg : id ∈ s.procsReg)
    (hinst : alGet id s.procsInst = some inst) (hpid : inst.pid.isSome)
    (hover : ∃ b, heartbeatBase inst = some b ∧ Py.ratSub now b > work_term)
    (hrun : monitor_working_processes s now = some r) :
    ∃ i, alGet id r.1.procsInst = some i ∧ i.state = .terminating ∧
      id ∈ r.1.procsTerm := by
  rw [monitor_working_processes] at hrun
  match hol : monitor_working_processes.overdueList s now s.procsReg with
  | none => rw [hol] at hrun; simp at hrun
  | some terminate =>
    rw [hol] at hrun
    simp at hrun
    have hmem : id ∈ terminate :=
      overdueList_mem s now s.procsReg terminate hol id inst hreg hinst hover
    have := (fold_termStable now id terminate (s, []) hwk).1
      ⟨inst, hinst, hpid⟩ hmem
    obtain ⟨i, hi, _, hist, _, hterm⟩ := this
    rw [← hrun]
    exact ⟨i, hi, hist, hterm⟩

/-! ## Updates without a parseable stdlog line change nothing -/

/-- An update whose stdlog buffer is absent, empty, or fails the
parse/extract step leaves the server state untouched. -/
theorem remote_update_unchanged (s : ServerState) (id : Nat)
    (inst : ProcessInstance) (bufs : Buffers) (now : ℚ)
    (hinst : alGet id s.procsInst = some inst)
    (hbad : ∀ log, bufs.b3 = some log →
      log.isEmpty = true ∨ (extract_progress log).isOk = false) :
    (remote_update_process s id bufs now).state = s := by
  unfold remote_update_process
  by_cases hreg : id ∈ s.procsReg
  · simp only [hreg, not_true, if_neg, not_false_iff, hinst]
    match hb : bufs.b3 with
    | none =>
      simp [alSet_self_of_get hinst]
    | some log =>
      rcases hbad log hb with hemp | hfail
      · simp [hemp, alSet_self_of_get hinst]
      · match hext : extract_progress log with
        | .ok q => rw [hext] at hfail; simp [Except.isOk, Except.toBool] at hfail
        | .error e =>
          by_cases hemp : log.isEmpty <;>
            simp [hemp, hext, Except.map, alSet_self_of_get hinst]
  · simp [hreg]

/-- Folding any number of such updates still leaves the state untouched. -/
theorem updates_fold_unchanged (id : Nat) :
    ∀ (updates : List (Buffers × ℚ)) (s : ServerState)
      (inst : ProcessInstance), alGet id s.procsInst = some inst →
      (∀ u ∈ updates, ∀ log, u.1.b3 = some log →
        log.isEmpty = true ∨ (extract_progress log).isOk = false) →
      updates.foldl (fun st u => (remote_update_process st id u.1 u.2).state) s
        = s := by
  intro updates
  induction updates with
  | nil => intro s inst _ _; rfl
  | cons u rest ih =>
    intro s inst hinst hbad
    have h1 : (remote_update_process s id u.1 u.2).state = s :=
      remote_update_unchanged s id inst u.1 u.2 hinst
        (hbad u (List.mem_cons_self u rest))
    simp only [List.foldl_cons, h1]
    exact ih s inst hinst (fun v hv => hbad v (List.mem_cons_of_mem u hv))

/-! ## Claim theorems -/

/-- A first `run("test.wait", ...)` against `state0`. -/
def runOnce : Outcome Nat :=
  remote_run_process state0 "test.wait" "tokA" none 0

/-- A second `run("test.wait", ...)` 100 ms later, while instance 17 is
still STARTING. -/
def runTwice : Outcome Nat :=
  remote_run_process runOnce.state "test.wait" "tokB" none (mkRat 1 10)

/-- C1: the spec says a `run` arriving while an instance of the same
worker is in a non-terminal state fails with `AlreadyRunning{existing_id}`
and creates no second instance. The code has no such guard: `run_process`
only checks `proc_info._state`, which nothing ever sets, so the second
`run` succeeds with a fresh id, a second instance of the same name
appears in the table, and the name index is silently overwritten. -/
theorem C1_second_run_creates_second_instance :
    runOnce.result = .ok 17 ∧ runTwice.result = .ok 18 ∧
    runTwice.state.procsInst.map (fun q => (q.1, q.2.name, q.2.state)) =
      [(17, "test.wait", PState.starting), (18, "test.wait", PState.starting)] ∧
    alGet "test.wait" runTwice.state.procsId = some 18 := by decide

/-- C2 (counterexample): registering with a token other than the one just
issued, while the STARTING instance is tracked under the name, does not
return `TerminateProcess` — the `AlreadyRunning` branch reads the unbound
`proc_id` and raises `UnboundLocalError` instead. -/
theorem C2_wrong_token_not_terminate :
    (register_process stateStart "test.wait" 555 9 (some "bad") 2).result =
      .error .unboundLocal ∧
    SrvErr.unboundLocal ≠ SrvErr.terminateProcess := by decide

/-- C2 (amended): with server debugging on, a `register` whose
`(name, token)` pair is untracked is rejected — with `TerminateProcess`
when no instance of the name is tracked, and with the `UnboundLocalError`
of the intended-`AlreadyRunning` branch when one is; a `register` whose
token was just issued for a STARTING instance of the name moves that
instance to WORKING and returns its id. -/
theorem C2_register_token_amended (s : ServerState) (name : String)
    (ppid ref : Nat) (t : String) (now : ℚ) (hdebug : s.debug = true) :
    (alGet (name, t) s.procsStart = none →
      (register_process s name ppid ref (some t) now).result =
        (if (alGet name s.procsId).isSome then Except.error .unboundLocal
         else Except.error .terminateProcess)) ∧
    (∀ pid inst, (alGet (name, t) s.procsStart).isSome →
      alGet name s.procsId = some pid →
      alGet pid s.procsInst = some inst →
      (register_process s name ppid ref (some t) now).result = .ok pid ∧
      (alGet pid (register_process s name ppid ref (some t) now).state.procsInst).map
        ProcessInstance.state = some PState.working ∧
      pid ∈ (register_process s name ppid ref (some t) now).state.procsReg) := by
  constructor
  · intro habs
    unfold register_process
    simp only [habs, Option.isSome_none, Bool.false_eq_true, if_neg,
      not_false_iff]
    by_cases hid : (alGet name s.procsId).isSome <;> simp [hid]
  · intro pid inst hpair hid hinst
    unfold register_process
    match hp : alGet (name, t) s.procsStart with
    | none => rw [hp] at hpair; simp at hpair
    | some v =>
      simp only [hp, Option.isSome_some, if_pos, hid, hinst]
      unfold finishRegistration
      simp [hdebug, alGet_alSet_self, mem_setInsert_self]

/-- C2 (witness): registering instance 17 of `test.wait` with its freshly
issued token `tokA` succeeds, returns 17, and the instance is WORKING and
in the registered index. -/
theorem C2_register_token_witness :
    (register_process stateStart "test.wait" 555 9 (some "tokA") 2).result =
      .ok 17 ∧
    (alGet 17 (register_process stateStart "test.wait" 555 9
      (some "tokA") 2).state.procsInst).map ProcessInstance.state =
      some PState.working ∧
    17 ∈ (register_process stateStart "test.wait" 555 9
      (some "tokA") 2).state.procsReg :=
  (C2_register_token_amended stateStart "test.wait" 555 9 "tokA" 2
    (by decide)).2 17 instStart (by decide) (by decide) (by decide)

/-- C3: an update from a registered worker whose last stdlog line fails
to parse (here: missing status element or any other extraction failure)
raises the error back to the worker, leaves the instance — progress and
updated timestamp included — untouched, and still forwards the raw
buffers to every REALTIME subscriber of the instance id and of the
worker name. -/
theorem C3_parse_failure_isolated (s : ServerState) (id : Nat)
    (inst : ProcessInstance) (bufs : Buffers) (log : List Char) (now : ℚ)
    (e : SrvErr)
    (hreg : id ∈ s.procsReg) (hinst : alGet id s.procsInst = some inst)
    (hlog : bufs.b3 = some log) (hne : log.isEmpty = false)
    (hfail : extract_progress log = .error e) :
    (remote_update_process s id bufs now).state = s ∧
    (remote_update_process s id bufs now).result = .error e ∧
    (remote_update_process s id bufs now).sent =
      (monRefs s.monRealtime (.inst id)).map
        (fun r => Sent.monUpdate r inst.name id inst.progress
          bufs.b1 bufs.b2 bufs.b3) ++
      (monRefs s.monRealtime (.pname inst.name)).map
        (fun r => Sent.monUpdate r inst.name id inst.progress
          bufs.b1 bufs.b2 bufs.b3) := by
  refine ⟨remote_update_unchanged s id inst bufs now hinst ?_, ?_, ?_⟩
  · intro l hl
    rw [hlog] at hl
    cases hl
    right
    simp [hfail, Except.isOk, Except.toBool]
  · unfold remote_update_process
    simp [hreg, hinst, hlog, hne, hfail, Except.map]
  · unfold remote_update_process
    simp [hreg, hinst, hlog, hne, hfail, Except.map]

/-- C3 (witness): on the registered instance 17, an update whose stdlog
line lacks the `status@ridersdiscount` element returns the `KeyError` to
the worker, changes nothing, and the REALTIME subscriber 42 still
receives the raw buffers. -/
theorem C3_parse_failure_witness :
    (remote_update_process stateReg 17 bufsBadElem 3).state = stateReg ∧
    (remote_update_process stateReg 17 bufsBadElem 3).result =
      .error .keyError ∧
    (remote_update_process stateReg 17 bufsBadElem 3).sent =
      (monRefs stateReg.monRealtime (.inst 17)).map
        (fun r => Sent.monUpdate r instReg.name 17 instReg.progress
          bufsBadElem.b1 bufsBadElem.b2 bufsBadElem.b3) ++
      (monRefs stateReg.monRealtime (.pname instReg.name)).map
        (fun r => Sent.monUpdate r instReg.name 17 instReg.progress
          bufsBadElem.b1 bufsBadElem.b2 bufsBadElem.b3) :=
  C3_parse_failure_isolated stateReg 17 instReg bufsBadElem
    (("<134>1 - - - - - [other progress=\"0.5\"]").data) 3 .keyError
    (by decide) (by decide) (by decide) (by decide) (by decide)

/-- C4 (counterexample): an update whose stdlog line carries the
float-parseable progress parameter `2.0` drives the instance's progress
to 2, outside `[0.0, 1.0]` — the handler stores `float(...)` without any
range check. -/
theorem C4_progress_escapes_range :
    (alGet 17 (remote_update_process stateReg 17 bufsTwo 3).state.procsInst).map
      ProcessInstance.progress = some 2 ∧
    ¬ ((2 : ℚ) ≤ 1) := by decide

/-- C4 (amended): progress defaults to 0 on creation, and an accepted
update stores the parsed progress value verbatim (and refreshes
`updated`); the value is range-checked nowhere, so progress stays in
`[0, 1]` exactly when every reported value lies there. -/
theorem C4_progress_stored_verbatim (i : Nat) (n : String) (st : ℚ)
    (s : ServerState) (id : Nat) (inst : ProcessInstance) (bufs : Buffers)
    (log : List Char) (now p : ℚ)
    (hreg : id ∈ s.procsReg) (hinst : alGet id s.procsInst = some inst)
    (hlog : bufs.b3 = some log) (hne : log.isEmpty = false)
    (hok : extract_progress log = .ok p) :
    (ProcessInstance.init i n st).progress = 0 ∧
    (alGet id (remote_update_process s id bufs now).state.procsInst).map
      ProcessInstance.progress = some p ∧
    (alGet id (remote_update_process s id bufs now).state.procsInst).map
      ProcessInstance.updated = some (some now) := by
  refine ⟨rfl, ?_, ?_⟩ <;>
  · unfold remote_update_process
    simp [hreg, hinst, hlog, hne, hok, Except.map, alGet_alSet_self]

/-- C4 (witness): instance 17 starts at progress 0; an update reporting
`0.5` stores exactly `1/2` and stamps `updated`. -/
theorem C4_progress_stored_witness :
    (ProcessInstance.init 17 "test.wait" 0).progress = 0 ∧
    (alGet 17 (remote_update_process stateReg 17 bufsHalf 3).state.procsInst).map
      ProcessInstance.progress = some (mkRat 1 2) ∧
    (alGet 17 (remote_update_process stateReg 17 bufsHalf 3).state.procsInst).map
      ProcessInstance.updated = some (some 3) :=
  C4_progress_stored_verbatim 17 "test.wait" 0 stateReg 17 instReg bufsHalf
    (("<134>1 - - - - - [status@ridersdiscount progress=\"0.5\"]").data)
    3 (mkRat 1 2) (by decide) (by decide) (by decide) (by decide) (by decide)

/-- C5 (counterexample): instance 17 registered at t = 2 with no update;
at the tick at t = 32 the elapsed time equals `work_term` exactly, the
check (`elapsed > self.work_term`, strict) selects nothing, and the
instance stays WORKING. -/
theorem C5_exact_deadline_no_termination :
    Py.ratSub 32 2 = work_term ∧
    monitor_working_processes stateReg 32 = some (stateReg, []) ∧
    (alGet 17 stateReg.procsInst).map ProcessInstance.state =
      some PState.working := by decide

/-- C5 (amended): a registered instance whose heartbeat base (last
update, or registration) is strictly more than `work_term` old at a
check tick is selected and transitions to TERMINATING (and is recorded
among the terminating processes). -/
theorem C5_work_deadline_strict (s : ServerState) (now : ℚ) (id : Nat)
    (inst : ProcessInstance) (b : ℚ) (r : ServerState × List Sent)
    (hwk : InstKeyed s) (hreg : id ∈ s.procsReg)
    (hinst : alGet id s.procsInst = some inst) (hpid : inst.pid.isSome)
    (hb : heartbeatBase inst = some b) (hgt : Py.ratSub now b > work_term)
    (hrun : monitor_working_processes s now = some r) :
    (alGet id r.1.procsInst).map ProcessInstance.state =
      some PState.terminating ∧
    id ∈ r.1.procsTerm := by
  obtain ⟨i, hi, hist, hterm⟩ :=
    work_deadline_fires s now id inst r hwk hreg hinst hpid
      ⟨b, hb, hgt⟩ hrun
  simp [hi, hist, hterm]

/-- C5 (witness): one tick at t = 33 (31 s after registration)
terminates instance 17. -/
theorem C5_work_deadline_witness :
    (alGet 17 ((monitor_working_processes stateReg 33).getD
      (stateReg, [])).1.procsInst).map ProcessInstance.state =
      some PState.terminating ∧
    17 ∈ ((monitor_working_processes stateReg 33).getD
      (stateReg, [])).1.procsTerm :=
  C5_work_deadline_strict stateReg 33 17 instReg 2
    ((monitor_working_processes stateReg 33).getD (stateReg, []))
    (by decide) (by decide) (by decide) (by decide) (by decide)
    (by decide) (by decide)

/-- C6 (counterexample): on the status word `0x0105` the low byte is 5,
so the claim prescribes exit `-5`; the code computes
`status >> 8 if status > 0xFF else -(status & 0xFF)` and reports 1. -/
theorem C6_both_bytes_nonzero_diverges :
    processEnded_exit 261 = 1 ∧ 261 % 256 = 5 ∧ (1 : Int) ≠ -5 := by decide

/-- C6 (amended): the code reports the high byte whenever the status
exceeds `0xFF` and the negated low byte otherwise; this agrees with the
claim's split (high byte if the low byte is zero, else `-low`) on every
16-bit status word in which at most one of the two bytes is non-zero —
the only words the OS produces for exited or signalled processes. -/
theorem C6_exit_split_one_byte (status : Nat) (hlt : status < 65536)
    (hz : status % 256 = 0 ∨ status / 256 = 0) :
    processEnded_exit status =
      (if status % 256 = 0 then ((status / 256 : Nat) : Int)
       else -((status % 256 : Nat) : Int)) := by
  unfold processEnded_exit
  rcases hz with hz | hz
  · simp only [hz, if_pos]
    rcases Nat.lt_or_ge status 256 with h | h
    · have h0 : status = 0 := by omega
      simp [h0]
    · have hgt : status > 0xFF := by omega
      simp [hgt, Nat.shiftRight_eq_div_pow]
  · have h256 : status < 256 := by omega
    have hngt : ¬ status > 0xFF := by omega
    simp only [hngt, if_neg, not_false_iff]
    by_cases h0 : status % 256 = 0
    · have hs0 : status = 0 := by omega
      simp [hs0]
    · simp [h0]

/-- C6 (witness): the status word `0x0F00` (clean exit 15) decodes to
exit code 15. -/
theorem C6_exit_split_witness :
    processEnded_exit 3840 =
      (if 3840 % 256 = 0 then ((3840 / 256 : Nat) : Int)
       else -((3840 % 256 : Nat) : Int)) :=
  C6_exit_split_one_byte 3840 (by decide) (Or.inl (by decide))

/-- C9: the name-validation regex `[\w][\w_]*` accepts `_foo` because
Python's `\w` already contains the underscore, although both the claim
and the regex's own comment require each segment to begin with an
alphanumeric; a leading dot is rejected as claimed. -/
theorem C9_underscore_segment_accepted :
    validate_process_name "_foo" = true ∧
    ('_'.isAlphanum = false) ∧
    validate_process_name ".foo" = false := by decide

/-- C10: an update carrying no parseable stdlog progress — key 3 absent,
empty, or its last line failing the parse/extract step — leaves the
instance's `updated` heartbeat (indeed the whole server state) unchanged,
however often it is repeated; consequently a registered worker sending
only such updates is still picked up by the work-deadline check and
terminated once its registration is strictly more than `work_term` old. -/
theorem C10_no_stdlog_no_heartbeat (s : ServerState) (id : Nat)
    (inst : ProcessInstance) (updates : List (Buffers × ℚ)) (now b : ℚ)
    (r : ServerState × List Sent)
    (hwk : InstKeyed s) (hreg : id ∈ s.procsReg)
    (hinst : alGet id s.procsInst = some inst) (hpid : inst.pid.isSome)
    (hbad : ∀ u ∈ updates, ∀ log, u.1.b3 = some log →
      log.isEmpty = true ∨ (extract_progress log).isOk = false)
    (hb : heartbeatBase inst = some b) (hgt : Py.ratSub now b > work_term)
    (hrun : monitor_working_processes
      (updates.foldl (fun st u => (remote_update_process st id u.1 u.2).state) s)
      now = some r) :
    updates.foldl (fun st u => (remote_update_process st id u.1 u.2).state) s
      = s ∧
    (alGet id r.1.procsInst).map ProcessInstance.state =
      some PState.terminating ∧
    id ∈ r.1.procsTerm := by
  have hfold :
      updates.foldl (fun st u => (remote_update_process st id u.1 u.2).state) s
        = s :=
    updates_fold_unchanged id updates s inst hinst hbad
  rw [hfold] at hrun
  refine ⟨hfold, ?_⟩
  obtain ⟨i, hi, hist, hterm⟩ :=
    work_deadline_fires s now id inst r hwk hreg hinst hpid
      ⟨b, hb, hgt⟩ hrun
  simp [hi, hist, hterm]

/-- C10 (witness): three updates (stdout/stderr only; empty stdlog; an
unparseable stdlog) leave `stateReg` byte-identical, and the tick at
t = 33 still terminates instance 17. -/
theorem C10_no_stdlog_witness :
    ([(bufsNoLog, (3 : ℚ)), (bufsEmptyLog, 4), (bufsBadElem, 5)].foldl
      (fun st u => (remote_update_process st 17 u.1 u.2).state) stateReg
      = stateReg) ∧
    (alGet 17 ((monitor_working_processes stateReg 33).getD
      (stateReg, [])).1.procsInst).map ProcessInstance.state =
      some PState.terminating ∧
    17 ∈ ((monitor_working_processes stateReg 33).getD
      (stateReg, [])).1.procsTerm :=
  C10_no_stdlog_no_heartbeat stateReg 17 instReg
    [(bufsNoLog, 3), (bufsEmptyLog, 4), (bufsBadElem, 5)] 33 2
    ((monitor_working_processes stateReg 33).getD (stateReg, []))
    (by decide) (by decide) (by decide) (by decide) (by decide)
    (by decide) (by decide) (by decide)

/-! ## C7: which field constraints the parser does enforce -/

/-- Storing a length-checked param name preserves the name-length
invariant. -/
theorem alSet_param_names {pname pvalue : List Char} {edata : SParams}
    (hn : ¬(pname.isEmpty = true ∨ pname.length > 32))
    (hinv : ∀ pv ∈ edata, 1 ≤ pv.1.length ∧ pv.1.length ≤ 32) :
    ∀ pv ∈ alSet pname pvalue edata,
      1 ≤ pv.1.length ∧ pv.1.length ≤ 32 := by
  push_neg at hn
  intro pv hpv
  rcases mem_alSet hpv with hh | hh
  · subst hh
    obtain ⟨h1, h2⟩ := hn
    dsimp only
    constructor
    · cases pname with
      | nil => simp at h1
      | cons a t => simp
    · omega
  · exact hinv pv hh

/-- Param names stored by `paramsLoop` always have length `1..32` (the
only check the source applies to them). -/
theorem paramsLoop_names (bdata : List Char) :
    ∀ (fuel pstart eend : Nat) (edata out : SParams) (bstart2 : Nat),
      paramsLoop bdata fuel pstart eend edata = .ok (out, bstart2) →
      (∀ pv ∈ edata, 1 ≤ pv.1.length ∧ pv.1.length ≤ 32) →
      ∀ pv ∈ out, 1 ≤ pv.1.length ∧ pv.1.length ≤ 32 := by
  intro fuel
  induction fuel with
  | zero =>
    intro pstart eend edata out bstart2 h
    simp [paramsLoop] at h
  | succ n ih =>
    intro pstart eend edata out bstart2 h hinv
    rw [paramsLoop] at h
    repeat' split at h
    any_goals exact Except.noConfusion h
    all_goals (
      first
      | (exact ih _ _ _ _ _ h (alSet_param_names (by assumption) hinv))
      | (simp only [Except.ok.injEq, Prod.mk.injEq] at h
         exact h.1 ▸ alSet_param_names (by assumption) hinv))

/-- Element params stored by `elemsLoop` all satisfy the param-name
length bound; the element ids themselves are never validated. -/
theorem elemsLoop_names (bdata : List Char) (blen : Nat) :
    ∀ (fuel bstart : Nat) (data out : SData) (bstart2 : Nat),
      elemsLoop bdata blen fuel bstart data = .ok (out, bstart2) →
      (∀ ep ∈ data, ∀ pv ∈ ep.2, 1 ≤ pv.1.length ∧ pv.1.length ≤ 32) →
      ∀ ep ∈ out, ∀ pv ∈ ep.2, 1 ≤ pv.1.length ∧ pv.1.length ≤ 32 := by
  intro fuel
  induction fuel with
  | zero =>
    intro bstart data out bstart2 h
    simp [elemsLoop] at h
  | succ n ih =>
    intro bstart data out bstart2 h hinv
    rw [elemsLoop] at h
    repeat' split at h
    any_goals exact Except.noConfusion h
    all_goals (
      first
      | (exact ih _ _ _ _ h hinv)
      | (refine ih _ _ _ _ h ?_
         intro ep hep
         rcases mem_alSet hep with hh | hh
         · subst hh
           exact paramsLoop_names bdata _ _ _ [] _ _ (by assumption)
             (by intro pv hpv; simp at hpv)
         · exact hinv ep hh)
      | (simp only [Except.ok.injEq, Prod.mk.injEq] at h
         refine h.1 ▸ ?_
         intro ep hep
         rcases mem_alSet hep with hh | hh
         · subst hh
           exact paramsLoop_names bdata _ _ _ [] _ _ (by assumption)
             (by intro pv hpv; simp at hpv)
         · exact hinv ep hh))

/-- What `checkField` guarantees about the field it returns. -/
theorem checkField_ok {tok : List Char} {maxLen : Nat}
    {r : Option (List Char)} (h : checkField tok maxLen = .ok r) :
    ∀ x ∈ r, is_graph x = true ∧ 1 ≤ x.length ∧ x.length ≤ maxLen := by
  unfold checkField at h
  by_cases hg : is_graph tok
  · rw [if_neg (by simp [hg])] at h
    by_cases hl : tok.isEmpty ∨ tok.length > maxLen
    · rw [if_pos hl] at h
      exact absurd h (by simp)
    · rw [if_neg hl] at h
      simp at h
      intro x hx
      rw [← h] at hx
      by_cases hd : tok = ['-']
      · simp [hd] at hx
      · simp [hd] at hx
        subst hx
        push_neg at hl
        refine ⟨hg, ?_, by omega⟩
        rcases hn : tok with _ | _
        · rw [hn] at hl
          simp at hl
        · simp
  · rw [if_pos (by simp [hg])] at h
    exact absurd h (by simp)

/-- A 33-character element id. -/
def longEid : List Char := ("aaaaaaaaaaaaaaaaaaaaaaaaaaaaaaaaa").data

/-- C7 (counterexample): `parse_syslog` accepts a structured-data element
whose id is 33 characters long — element ids are never validated (neither
length nor printability), contrary to the claimed `1..32 printable ASCII`
constraint. -/
theorem C7_long_element_id_accepted :
    parse_syslog (("<134>1 - - - - - [").data ++ longEid ++
        (" p=\"1\"]").data) =
      .ok (⟨134, 1, none, none, none, none, none⟩,
        [(longEid, [(("p").data, ("1").data)])], ⟨false, []⟩) ∧
    longEid.length = 33 ∧ ¬ (longEid.length ≤ 32) := by decide

/-- A header `parseHeader` accepts satisfies the four field
constraints. -/
theorem parseHeader_ok {bhead : List (List Char)} {hd : SyslogHead}
    (heq : parseHeader bhead = .ok hd) :
    (∀ x ∈ hd.hostname, is_graph x = true ∧ 1 ≤ x.length ∧ x.length ≤ 255) ∧
    (∀ x ∈ hd.appname, is_graph x = true ∧ 1 ≤ x.length ∧ x.length ≤ 48) ∧
    (∀ x ∈ hd.procid, is_graph x = true ∧ 1 ≤ x.length ∧ x.length ≤ 128) ∧
    (∀ x ∈ hd.msgid, is_graph x = true ∧ 1 ≤ x.length ∧ x.length ≤ 32) := by
  unfold parseHeader at heq
  simp only [bind, Except.bind, pure, Except.pure, throw, throwThe,
    MonadExceptOf.throw] at heq
  repeat' split at heq
  any_goals exact Except.noConfusion heq
  all_goals (
    simp only [Except.ok.injEq] at heq
    rw [← heq]
    exact ⟨checkField_ok (by assumption), checkField_ok (by assumption),
      checkField_ok (by assumption), checkField_ok (by assumption)⟩)

/-- All param names in data `parseBody` accepts satisfy the length
bound. -/
theorem parseBody_names {bdata : List Char} {d : SData} {m : SyslogMsg}
    (heq : parseBody bdata = .ok (d, m)) :
    ∀ ep ∈ d, ∀ pv ∈ ep.2, 1 ≤ pv.1.length ∧ pv.1.length ≤ 32 := by
  unfold parseBody at heq
  simp only [bind, Except.bind, pure, Except.pure, throw, throwThe,
    MonadExceptOf.throw] at heq
  repeat' split at heq
  any_goals exact Except.noConfusion heq
  all_goals (
    simp only [Except.ok.injEq, Prod.mk.injEq] at heq
    first
    | (rw [← heq.1]; intro ep hep; simp at hep)
    | (rw [← heq.1]
       exact elemsLoop_names _ _ _ _ _ _ _ (by assumption)
         (by intro ep hep; simp at hep)))

/-- C7 (amended): the parser enforces the hostname (1..255 printable
ASCII), appname (1..48), procid (1..128) and msgid (1..32) constraints,
and the `1..32` length bound on param names — every line it accepts
satisfies them — but it validates neither element ids (any length or
content is accepted) nor the printability of param names. -/
theorem C7_field_constraints (entry : List Char) (r : SyslogResult)
    (h : parse_syslog entry = .ok r) :
    (∀ x ∈ r.1.hostname, is_graph x = true ∧ 1 ≤ x.length ∧ x.length ≤ 255) ∧
    (∀ x ∈ r.1.appname, is_graph x = true ∧ 1 ≤ x.length ∧ x.length ≤ 48) ∧
    (∀ x ∈ r.1.procid, is_graph x = true ∧ 1 ≤ x.length ∧ x.length ≤ 128) ∧
    (∀ x ∈ r.1.msgid, is_graph x = true ∧ 1 ≤ x.length ∧ x.length ≤ 32) ∧
    (∀ ep ∈ r.2.1, ∀ pv ∈ ep.2, 1 ≤ pv.1.length ∧ pv.1.length ≤ 32) := by
  unfold parse_syslog at h
  simp only [bind, Except.bind, pure, Except.pure] at h
  split at h
  · exact Except.noConfusion h
  · split at h
    · exact Except.noConfusion h
    · simp only [Except.ok.injEq] at h
      rw [← h]
      obtain ⟨h1, h2, h3, h4⟩ := parseHeader_ok (by assumption)
      exact ⟨h1, h2, h3, h4, parseBody_names (by assumption)⟩

/-- A fully populated, well-formed syslog line. -/
def entryFull : List Char :=
  ("<134>1 2020-01-01T00:00:00Z myhost app pid42 msgid7 [a x=\"1\"] hi").data

/-- Its parse. -/
def entryFullResult : SyslogResult :=
  (⟨134, 1, some (("2020-01-01T00:00:00Z").data), some (("myhost").data),
    some (("app").data), some (("pid42").data), some (("msgid7").data)⟩,
   [((("a").data), [((("x").data), ("1").data)])], ⟨false, ("hi").data⟩)

/-- C7 (witness): the accepted line `entryFull` satisfies every enforced
constraint. -/
theorem C7_field_constraints_witness :
    (∀ x ∈ entryFullResult.1.hostname,
      is_graph x = true ∧ 1 ≤ x.length ∧ x.length ≤ 255) ∧
    (∀ x ∈ entryFullResult.1.appname,
      is_graph x = true ∧ 1 ≤ x.length ∧ x.length ≤ 48) ∧
    (∀ x ∈ entryFullResult.1.procid,
      is_graph x = true ∧ 1 ≤ x.length ∧ x.length ≤ 128) ∧
    (∀ x ∈ entryFullResult.1.msgid,
      is_graph x = true ∧ 1 ≤ x.length ∧ x.length ≤ 32) ∧
    (∀ ep ∈ entryFullResult.2.1, ∀ pv ∈ ep.2,
      1 ≤ pv.1.length ∧ pv.1.length ≤ 32) :=
  C7_field_constraints entryFull entryFullResult (by decide)

/-! ## C8: formatting and re-parsing a syslog line

The repository contains no general RFC-5424 formatter (`progress.py`
emits only fixed status lines), so the formatter below is modelled from
the spec. -/

/-- Fuelled digit expansion (fuel keeps the recursion structural). -/
def natToDigitsAux : Nat → Nat → List Char
  | 0, _ => []
  | fuel + 1, n =>
    if n < 10 then [Char.ofNat (n + 48)]
    else natToDigitsAux fuel (n / 10) ++ [Char.ofNat (n % 10 + 48)]

/-- Decimal digits of a natural number, most significant first. -/
def natToDigits (n : Nat) : List Char := natToDigitsAux (n + 1) n

/-- Modelled from the spec: the param-value alphabet "escapes `\"`, `\`,
`]` via backslash" (section 4.5). -/
def escapeValue (v : List Char) : List Char :=
  v.flatMap (fun c => if c = '"' ∨ c = '\\' ∨ c = ']' then ['\\', c] else [c])

/-- Modelled from the spec: `param := name "=" "\"" value "\""`, preceded
by the separating space of `element := "[" ID (SP param)* "]"`. -/
def formatParam (pv : List Char × List Char) : List Char :=
  ' ' :: pv.1 ++ '=' :: '"' :: escapeValue pv.2 ++ ['"']

/-- Modelled from the spec: `element := "[" ID (SP param)* "]"`. -/
def formatElem (ep : List Char × SParams) : List Char :=
  '[' :: ep.1 ++ ep.2.flatMap formatParam ++ [']']

/-- Modelled from the spec: `STRUCTURED-DATA := "-" | element+`. -/
def formatSD (d : SData) : List Char :=
  if d = [] then ['-'] else d.flatMap formatElem

/-- Modelled from the spec: a nil header field is written `-`. -/
def formatField : Option (List Char) → List Char
  | none => ['-']
  | some x => x

/-- Modelled from the spec: the RFC-5424 line
`<PRIVAL>VERSION SP TIMESTAMP SP HOST SP APP SP PROCID SP MSGID SP
STRUCTURED-DATA [SP MSG]` (section 4.5). -/
def format_syslog (h : SyslogHead) (d : SData) (m : List Char) :
    List Char :=
  '<' :: natToDigits h.prival.toNat ++ '>' :: natToDigits h.version.toNat
    ++ ' ' :: formatField h.timestamp
    ++ ' ' :: formatField h.hostname
    ++ ' ' :: formatField h.appname
    ++ ' ' :: formatField h.procid
    ++ ' ' :: formatField h.msgid
    ++ ' ' :: formatSD d
    ++ (if m = [] then [] else ' ' :: m)

/-- Modelled from the spec: the `SD-NAME` alphabet, `1..32` printable
ASCII except `=`, space, `]`, `\"`. -/
def sdNameOk (x : List Char) : Prop :=
  x ≠ [] ∧ x.length ≤ 32 ∧
    ∀ c ∈ x, isGraphChar c = true ∧ c ≠ '=' ∧ c ≠ ']' ∧ c ≠ '"'

/-- A param value containing none of the characters the spec escapes
(the escape-free fragment of the value alphabet). -/
def valueOk (v : List Char) : Prop :=
  ∀ c ∈ v, c ≠ '"' ∧ c ≠ '\\' ∧ c ≠ ']'

/-- Modelled from the spec: a populated header field obeys its
printable-ASCII length constraint (and is distinguishable from the nil
marker). -/
def fieldOk (maxLen : Nat) : Option (List Char) → Prop
  | none => True
  | some x =>
    x ≠ [] ∧ x.length ≤ maxLen ∧ (∀ c ∈ x, isGraphChar c = true) ∧
      x ≠ ['-']

/-- Modelled from the spec: a well-formed (header, structured-data,
message) triple, restricted to the fragment on which the round-trip law
holds. Three restrictions go beyond the section-4.5 grammar, each
excluding inputs on which `parse_syslog` itself fails (all three are
exhibited in the counterexample): param values are escape-free (the
parser never unescapes); every element carries at least one param (the
grammar allows zero, but a zero-param element drives the parser's
element loop forever); and the message is empty when the structured data
is nil (the grammar allows `"-" SP MSG`, but the parser rejects it with
`ValueError`). The remaining conjuncts mirror the grammar: field
alphabets and lengths, no duplicate element ids or param names (the
parser's dicts would collapse them), and no BOM decoration. -/
def WellFormed (h : SyslogHead) (d : SData) (m : List Char) : Prop :=
  0 ≤ h.prival ∧ h.prival ≤ 191 ∧ 1 ≤ h.version ∧ h.version ≤ 999 ∧
  fieldOk 255 h.timestamp ∧ fieldOk 255 h.hostname ∧
  fieldOk 48 h.appname ∧ fieldOk 128 h.procid ∧ fieldOk 32 h.msgid ∧
  (∀ ep ∈ d, sdNameOk ep.1 ∧ ep.2 ≠ [] ∧
    ∀ pv ∈ ep.2, sdNameOk pv.1 ∧ valueOk pv.2) ∧
  (d.map Prod.fst).Nodup ∧
  (∀ ep ∈ d, (ep.2.map Prod.fst).Nodup) ∧
  (d = [] → m = []) ∧
  m.take 3 ≠ bomChars

/-- C8 (counterexample): three triples allowed by the spec's section-4.5
grammar on which format-then-parse does not reproduce the triple.
A param value containing a double quote comes back with the formatter's
backslash kept (`_re_close_dquote` only locates the closing quote;
nothing unescapes); an element with zero params — `element := "[" ID
(SP param)* "]"` allows none — drives the parser's element loop forever
(`bstart` never advances); and nil structured data followed by a message
is rejected with `ValueError` (the body `- msg` is neither `-` nor starts
with `[`). -/
theorem C8_roundtrip_failures :
    (parse_syslog (format_syslog ⟨134, 1, none, none, none, none, none⟩
        [(("e").data, [(("n").data, ['a', '"', 'b'])])] []) =
      .ok (⟨134, 1, none, none, none, none, none⟩,
        [(("e").data, [(("n").data, ['a', '\\', '"', 'b'])])],
        ⟨false, []⟩) ∧
      (['a', '\\', '"', 'b'] : List Char) ≠ ['a', '"', 'b']) ∧
    parse_syslog (format_syslog ⟨134, 1, none, none, none, none, none⟩
        [(("e").data, [])] []) = .error .nonTermination ∧
    parse_syslog (format_syslog ⟨134, 1, none, none, none, none, none⟩
        [] (("hi").data)) = .error .valueError := by decide

/-! ### Digit strings round-trip through `Py.pyInt` -/

/-- Facts about the digit character `Char.ofNat (d + 48)` for `d < 10`. -/
theorem digitChar_facts (d : Nat) (hd : d < 10) :
    (Char.ofNat (d + 48)).isDigit = true ∧
    (Char.ofNat (d + 48)).isWhitespace = false ∧
    (Char.ofNat (d + 48)).toNat - 48 = d ∧
    Char.ofNat (d + 48) ≠ '-' ∧ Char.ofNat (d + 48) ≠ '+' ∧
    Char.ofNat (d + 48) ≠ ' ' ∧ Char.ofNat (d + 48) ≠ '>' ∧
    isGraphChar (Char.ofNat (d + 48)) = true := by
  interval_cases d <;> exact ⟨rfl, rfl, rfl, by decide, by decide, by decide,
    by decide, rfl⟩

/-- Appending one digit multiplies the accumulated value by ten. -/
theorem digitsVal_append (a : List Char) (c : Char) :
    Py.digitsVal (a ++ [c]) = Py.digitsVal a * 10 + (c.toNat - 48) := by
  simp [Py.digitsVal, List.foldl_append]

/-- `natToDigitsAux` with enough fuel produces a non-empty digit string
whose value is the input. -/
theorem natToDigitsAux_spec (fuel : Nat) : ∀ (n : Nat), n < fuel →
    Py.digitsVal (natToDigitsAux fuel n) = n ∧
    natToDigitsAux fuel n ≠ [] ∧
    ∀ c ∈ natToDigitsAux fuel n, ∃ d, d < 10 ∧ c = Char.ofNat (d + 48) := by
  induction fuel with
  | zero => intro n h; omega
  | succ fuel ih =>
    intro n h
    by_cases h10 : n < 10
    · refine ⟨?_, ?_, ?_⟩ <;> simp only [natToDigitsAux, if_pos h10]
      · simpa [Py.digitsVal] using (digitChar_facts n h10).2.2.1
      · simp
      · intro c hc
        simp at hc
        exact ⟨n, h10, hc⟩
    · have hdiv : n / 10 < n := Nat.div_lt_self (by omega) (by omega)
      obtain ⟨ihv, ihne, ihd⟩ := ih (n / 10) (by omega)
      refine ⟨?_, ?_, ?_⟩ <;> simp only [natToDigitsAux, if_neg h10]
      · rw [digitsVal_append, ihv, (digitChar_facts (n % 10) (by omega)).2.2.1]
        omega
      · simp
      · intro c hc
        rcases List.mem_append.mp hc with hc | hc
        · exact ihd c hc
        · simp at hc
          exact ⟨n % 10, by omega, hc⟩

/-- `natToDigits n` is a non-empty digit string whose value is `n`. -/
theorem natToDigits_spec (n : Nat) :
    Py.digitsVal (natToDigits n) = n ∧ natToDigits n ≠ [] ∧
    ∀ c ∈ natToDigits n, ∃ d, d < 10 ∧ c = Char.ofNat (d + 48) :=
  natToDigitsAux_spec (n + 1) n (by omega)

/-- `dropWhile` is the identity when no character satisfies the test. -/
theorem dropWhile_eq_self_of_all {p : Char → Bool} {l : List Char}
    (h : ∀ c ∈ l, p c = false) : l.dropWhile p = l := by
  cases l with
  | nil => rfl
  | cons c cs => simp [List.dropWhile_cons, h c (by simp)]

/-- `Py.pyInt` evaluates a pure digit string to its value. -/
theorem pyInt_digits {ds : List Char} (hne : ds ≠ [])
    (hd : ∀ c ∈ ds, ∃ d, d < 10 ∧ c = Char.ofNat (d + 48)) :
    Py.pyInt ds = some (Py.digitsVal ds : Int) := by
  have hnw : ∀ c ∈ ds, c.isWhitespace = false := by
    intro c hc
    obtain ⟨d, hd10, rfl⟩ := hd c hc
    exact (digitChar_facts d hd10).2.1
  have htrim : ((ds.dropWhile Char.isWhitespace).reverse.dropWhile
      Char.isWhitespace).reverse = ds := by
    rw [dropWhile_eq_self_of_all hnw, dropWhile_eq_self_of_all
      (fun c hc => hnw c (List.mem_reverse.mp hc)), List.reverse_reverse]
  have hdig : ds.all Char.isDigit = true := by
    rw [List.all_eq_true]
    intro c hc
    obtain ⟨d, hd10, rfl⟩ := hd c hc
    exact (digitChar_facts d hd10).1
  simp only [Py.pyInt, htrim]
  split
  · obtain ⟨d, hd10, hcc⟩ := hd '-' (by simp)
    exact absurd hcc.symm (digitChar_facts d hd10).2.2.2.1
  · obtain ⟨d, hd10, hcc⟩ := hd '+' (by simp)
    exact absurd hcc.symm (digitChar_facts d hd10).2.2.2.2.1
  · simp [List.isEmpty_iff, hne, hdig]

/-! ### Locating separators in a formatted line -/

/-- `Py.breakAt` splits exactly at the first separator occurrence. -/
theorem breakAt_append {sep : Char} {a b : List Char} (ha : sep ∉ a) :
    Py.breakAt sep (a ++ sep :: b) = some (a, b) := by
  induction a with
  | nil => simp [Py.breakAt]
  | cons c cs ih =>
    simp only [List.cons_append, Py.breakAt, List.append_eq]
    rw [if_neg (by rintro rfl; exact ha (by simp)),
      ih (fun hm => ha (by simp [hm]))]
    rfl

/-- One `Py.splitLimit` step peels one separator-free token. -/
theorem splitLimit_cons {sep : Char} {n : Nat} {a b : List Char}
    (ha : sep ∉ a) :
    Py.splitLimit sep (n + 1) (a ++ sep :: b) =
      a :: Py.splitLimit sep n b := by
  simp [Py.splitLimit, breakAt_append ha]

/-- `Py.findAux` finds the first occurrence, offset by the base index. -/
theorem findAux_spec {c : Char} {a b : List Char} (ha : c ∉ a) (i : Nat) :
    Py.findAux c (a ++ c :: b) i = some (i + a.length) := by
  induction a generalizing i with
  | nil => simp [Py.findAux]
  | cons x xs ih =>
    simp only [List.cons_append, Py.findAux, List.append_eq]
    rw [if_neg (by rintro rfl; exact ha (by simp)),
      ih (fun hm => ha (by simp [hm]))]
    congr 1
    simp
    omega

/-- `Py.findFrom`, characterized through a decomposition of the suffix. -/
theorem findFrom_of_drop {cs : List Char} {c : Char} {pos : Nat}
    {a b : List Char} (hdrop : cs.drop pos = a ++ c :: b) (ha : c ∉ a) :
    Py.findFrom cs c pos = some (pos + a.length) := by
  unfold Py.findFrom
  rw [hdrop, findAux_spec ha]

/-- `Py.slice`, characterized through a decomposition of the suffix. -/
theorem slice_of_drop {cs : List Char} {pos : Nat} {a rest : List Char}
    (hdrop : cs.drop pos = a ++ rest) :
    Py.slice cs pos (pos + a.length) = a := by
  unfold Py.slice
  rw [hdrop, Nat.add_sub_cancel_left, List.take_left]

/-- Dropping past a known prefix of the suffix. -/
theorem drop_shift {cs : List Char} {pos : Nat} {a rest : List Char}
    (hdrop : cs.drop pos = a ++ rest) :
    cs.drop (pos + a.length) = rest := by
  have h1 : cs.drop (pos + a.length) = (cs.drop pos).drop a.length := by
    rw [List.drop_drop, Nat.add_comm]
  rw [h1, hdrop, List.drop_left]

/-- Dropping one character of a known suffix. -/
theorem drop_succ_of_drop {cs : List Char} {pos : Nat} {c : Char}
    {rest : List Char} (hdrop : cs.drop pos = c :: rest) :
    cs.drop (pos + 1) = rest :=
  @drop_shift cs pos [c] rest hdrop

/-- `List.get?`, characterized through the head of the suffix. -/
theorem get?_of_drop {cs : List Char} {pos : Nat} {c : Char}
    {rest : List Char} (hdrop : cs.drop pos = c :: rest) :
    cs.get? pos = some c := by
  induction cs generalizing pos with
  | nil => simp at hdrop
  | cons x xs ih =>
    cases pos with
    | zero =>
      rw [List.drop_zero] at hdrop
      rw [hdrop]
      rfl
    | succ p => exact ih (by simpa using hdrop)

/-- The length of a list decomposed through `drop`. -/
theorem length_of_drop {cs : List Char} {pos : Nat} {a : List Char}
    (hdrop : cs.drop pos = a) (hpos : pos ≤ cs.length) :
    cs.length = pos + a.length := by
  have h1 := List.length_drop pos cs
  rw [hdrop] at h1
  omega

/-- The suffix at `pos` is never longer than what `pos` leaves room for. -/
theorem drop_length_le {cs : List Char} {pos : Nat} {a : List Char}
    (hdrop : cs.drop pos = a) : pos + a.length ≤ cs.length ∨ a = [] := by
  by_cases hpos : pos ≤ cs.length
  · exact Or.inl (by rw [length_of_drop hdrop hpos])
  · right
    rw [← hdrop, List.drop_eq_nil_of_le (by omega)]

/-! ### `alSet` as append, under fresh keys -/

/-- Setting an absent key appends the pair. -/
theorem alSet_eq_append {α β : Type} [DecidableEq α] {k : α} (v : β)
    {l : List (α × β)} (h : k ∉ l.map Prod.fst) :
    alSet k v l = l ++ [(k, v)] := by
  induction l with
  | nil => rfl
  | cons p ps ih =>
    simp only [List.map_cons, List.mem_cons] at h
    push_neg at h
    simp only [alSet]
    rw [if_neg (fun he => h.1 he.symm), ih h.2]
    rfl

/-- Folding `alSet` over pairwise-fresh keys materializes the list. -/
theorem foldl_alSet_eq {α β : Type} [DecidableEq α] :
    ∀ (l acc : List (α × β)), (l.map Prod.fst).Nodup →
      (∀ k ∈ l.map Prod.fst, k ∉ acc.map Prod.fst) →
      l.foldl (fun d p => alSet p.1 p.2 d) acc = acc ++ l
  | [], acc, _, _ => by simp
  | p :: ps, acc, hnd, hdisj => by
    simp only [List.foldl_cons]
    rw [alSet_eq_append p.2 (hdisj p.1 (by simp))]
    rw [foldl_alSet_eq ps (acc ++ [p]) (by simpa using hnd.of_cons ) ?_]
    · simp
    · intro k hk
      simp only [List.map_append, List.mem_append]
      push_neg
      refine ⟨hdisj k (by simp [hk]), ?_⟩
      simp only [List.map_cons, List.nodup_cons] at hnd
      intro hm
      simp at hm
      exact hnd.1 (hm ▸ hk)

/-! ### The formatted fragments, characterized -/

/-- Escaping is the identity on escape-free values. -/
theorem escapeValue_eq_self {v : List Char}
    (hv : ∀ c ∈ v, c ≠ '"' ∧ c ≠ '\\' ∧ c ≠ ']') : escapeValue v = v := by
  induction v with
  | nil => rfl
  | cons c cs ih =>
    obtain ⟨h1, h2, h3⟩ := hv c (by simp)
    simp only [escapeValue, List.flatMap_cons] at ih ⊢
    rw [if_neg (by simp [h1, h2, h3]), ih (fun x hx => hv x (by simp [hx]))]
    rfl

/-- Shape of one formatted param over an escape-free value. -/
theorem formatParam_shape {nm v : List Char}
    (hv : ∀ c ∈ v, c ≠ '"' ∧ c ≠ '\\' ∧ c ≠ ']') :
    formatParam (nm, v) = ' ' :: nm ++ '=' :: '"' :: v ++ ['"'] := by
  simp [formatParam, escapeValue_eq_self hv]

/-- Length of one formatted param over an escape-free value. -/
theorem formatParam_length {nm v : List Char}
    (hv : ∀ c ∈ v, c ≠ '"' ∧ c ≠ '\\' ∧ c ≠ ']') :
    (formatParam (nm, v)).length = nm.length + v.length + 4 := by
  rw [formatParam_shape hv]
  simp
  omega

/-- Formatted params contribute at least one character apiece. -/
theorem flatMap_formatParam_length_ge (ps : SParams) :
    ps.length ≤ (ps.flatMap formatParam).length := by
  induction ps with
  | nil => simp
  | cons p ps ih =>
    simp only [List.flatMap_cons, List.length_append, List.length_cons]
    have h1 : 1 ≤ (formatParam p).length := by
      simp [formatParam]
    omega

/-- Formatted elements contribute at least one character apiece. -/
theorem flatMap_formatElem_length_ge (es : SData) :
    es.length ≤ (es.flatMap formatElem).length := by
  induction es with
  | nil => simp
  | cons e es ih =>
    simp only [List.flatMap_cons, List.length_append, List.length_cons]
    have h1 : 1 ≤ (formatElem e).length := by
      simp [formatElem]
    omega

/-- The closing bracket does not occur inside formatted params whose
names and values avoid it. -/
theorem not_mem_flatMap_formatParam {ps : SParams}
    (h : ∀ pv ∈ ps, ']' ∉ pv.1 ∧
      ∀ c ∈ pv.2, c ≠ '"' ∧ c ≠ '\\' ∧ c ≠ ']') :
    ']' ∉ ps.flatMap formatParam := by
  intro hmem
  rw [List.mem_flatMap] at hmem
  obtain ⟨pv, hpv, hc⟩ := hmem
  obtain ⟨h1, h2⟩ := h pv hpv
  rw [show pv = (pv.1, pv.2) from rfl, formatParam_shape h2] at hc
  simp at hc
  rcases hc with hc | hc
  · exact h1 hc
  · exact (h2 ']' hc).2.2 rfl

/-! ### The closing-quote search on escape-free values -/

/-- On an escape-free value the leftmost `_re_close_dquote` match is the
closing quote itself. -/
theorem closeDQuoteGo_run {bdata : List Char} :
    ∀ (v : List Char) (pos fuel : Nat) (tail : List Char),
      bdata.drop pos = v ++ '"' :: tail →
      (∀ c ∈ v, c ≠ '"' ∧ c ≠ '\\') →
      1 ≤ pos → bdata.get? (pos - 1) ≠ some '\\' →
      v.length < fuel →
      closeDQuoteEnd.go bdata fuel pos = some (pos + v.length + 1)
  | v, pos, 0, tail, _, _, _, _, hfuel => absurd hfuel (by omega)
  | [], pos, fuel + 1, tail, hdrop, hv, hpos, hprev, hfuel => by
    simp only [closeDQuoteEnd.go]
    have hrun : ((bdata.drop pos).takeWhile (· = '\\')).length = 0 := by
      rw [hdrop]
      simp [List.takeWhile_cons]
    have hget : bdata.get? pos = some '"' := get?_of_drop hdrop
    rw [show matchCloseAt bdata pos = some (pos + 0 + 1) from ?_]
    · simp
    · unfold matchCloseAt
      rw [hrun]
      rw [if_pos ⟨Or.inr hprev, by omega, by simpa using hget⟩]
  | c :: v, pos, fuel + 1, tail, hdrop, hv, hpos, hprev, hfuel => by
    simp only [closeDQuoteEnd.go]
    obtain ⟨hc1, hc2⟩ := hv c (by simp)
    have hrun : ((bdata.drop pos).takeWhile (· = '\\')).length = 0 := by
      rw [hdrop]
      simp [List.takeWhile_cons, hc2]
    have hget : bdata.get? pos = some c := get?_of_drop hdrop
    rw [show matchCloseAt bdata pos = none from ?_]
    · have hrec := closeDQuoteGo_run v (pos + 1) fuel tail
        (drop_succ_of_drop hdrop) (fun x hx => hv x (by simp [hx]))
        (by omega) (by rw [Nat.add_sub_cancel, hget]; simp [hc2]) (by
          simp at hfuel ⊢
          omega)
      rw [hrec]
      have h2 : pos + 1 + v.length + 1 = pos + (c :: v).length + 1 := by
        simp
        omega
      rw [h2]
    · unfold matchCloseAt
      rw [hrun, if_neg]
      rintro ⟨-, -, hq⟩
      rw [Nat.add_zero, hget] at hq
      exact hc1 (by injection hq)

/-- `closeDQuoteEnd` on an escape-free value locates the closing quote. -/
theorem closeDQuoteEnd_run {bdata : List Char} {v : List Char} {pos : Nat}
    {tail : List Char} (hdrop : bdata.drop pos = v ++ '"' :: tail)
    (hv : ∀ c ∈ v, c ≠ '"' ∧ c ≠ '\\') (hpos : 1 ≤ pos)
    (hprev : bdata.get? (pos - 1) ≠ some '\\') :
    closeDQuoteEnd bdata pos = some (pos + v.length + 1) := by
  unfold closeDQuoteEnd
  refine closeDQuoteGo_run v pos _ tail hdrop hv hpos hprev ?_
  have hle : pos ≤ bdata.length := by
    by_contra hgt
    rw [List.drop_eq_nil_of_le (by omega)] at hdrop
    exact absurd hdrop.symm (by simp)
  have := length_of_drop hdrop hle
  simp at this
  omega

/-- The params loop consumes exactly the formatted params of one element,
stores them in order, and stops one past the closing bracket. -/
theorem paramsLoop_run (bdata : List Char) :
    ∀ (ps : SParams) (fuel pstart eend : Nat) (acc : SParams)
      (after : List Char),
      ps ≠ [] →
      bdata.drop pstart = ps.flatMap formatParam ++ ']' :: after →
      eend = pstart + (ps.flatMap formatParam).length →
      (∀ pv ∈ ps, pv.1 ≠ [] ∧ pv.1.length ≤ 32 ∧ '=' ∉ pv.1 ∧
        ∀ c ∈ pv.2, c ≠ '"' ∧ c ≠ '\\' ∧ c ≠ ']') →
      ps.length ≤ fuel →
      paramsLoop bdata fuel pstart eend acc =
        .ok (ps.foldl (fun d pv => alSet pv.1 pv.2 d) acc, eend + 1)
  | [], _, _, _, _, _, hne, _, _, _, _ => absurd rfl hne
  | (nm, v) :: ps', fuel, pstart, eend, acc, after, _, hdrop, heend, hwf,
      hfuel => by
    obtain ⟨hnm_ne, hnm_len, hnm_eq, hv⟩ := hwf (nm, v) (by simp)
    replace hnm_ne : nm ≠ [] := hnm_ne
    replace hnm_len : nm.length ≤ 32 := hnm_len
    replace hnm_eq : '=' ∉ nm := hnm_eq
    replace hv : ∀ c ∈ v, c ≠ '"' ∧ c ≠ '\\' ∧ c ≠ ']' := hv
    have hnm32 : ¬ nm.length > 32 := by omega
    cases fuel with
    | zero => simp at hfuel
    | succ fuel' =>
    have hshape : ((nm, v) :: ps').flatMap formatParam ++ ']' :: after =
        ' ' :: (nm ++ '=' :: '"' :: (v ++ '"' ::
          (ps'.flatMap formatParam ++ ']' :: after))) := by
      simp [List.flatMap_cons, formatParam_shape hv, List.append_assoc]
    rw [hshape] at hdrop
    have hlenfp : (((nm, v) :: ps').flatMap formatParam).length =
        nm.length + v.length + 4 + (ps'.flatMap formatParam).length := by
      simp [List.flatMap_cons, formatParam_length hv]
      try omega
    have hd1 := drop_succ_of_drop hdrop
    have hff : Py.findFrom bdata '=' (pstart + 1) =
        some (pstart + 1 + nm.length) := findFrom_of_drop hd1 hnm_eq
    have hfir : Py.findInRange bdata '=' (pstart + 1) eend =
        some (pstart + 1 + nm.length) := by
      simp only [Py.findInRange, hff]
      rw [if_pos (by omega)]
    have hsl1 : Py.slice bdata (pstart + 1) (pstart + 1 + nm.length) = nm :=
      slice_of_drop hd1
    have hd2 : bdata.drop (pstart + 1 + nm.length) =
        '=' :: '"' :: (v ++ '"' ::
          (ps'.flatMap formatParam ++ ']' :: after)) := drop_shift hd1
    have hd3 := drop_succ_of_drop hd2
    have hget1 : bdata.get? (pstart + 1 + nm.length + 1) = some '"' :=
      get?_of_drop hd3
    have hd4 : bdata.drop (pstart + 1 + nm.length + 2) =
        v ++ '"' :: (ps'.flatMap formatParam ++ ']' :: after) :=
      drop_succ_of_drop hd3
    have hvq : ∀ c ∈ v, c ≠ '"' ∧ c ≠ '\\' :=
      fun c hc => ⟨(hv c hc).1, (hv c hc).2.1⟩
    have hclose : closeDQuoteEnd bdata (pstart + 1 + nm.length + 2) =
        some (pstart + 1 + nm.length + 2 + v.length + 1) :=
      closeDQuoteEnd_run hd4 hvq (by omega) (by
        rw [show pstart + 1 + nm.length + 2 - 1 =
          pstart + 1 + nm.length + 1 from rfl, hget1]
        simp)
    have hd5 := drop_shift hd4
    have hd6 : bdata.drop (pstart + 1 + nm.length + 2 + v.length + 1) =
        ps'.flatMap formatParam ++ ']' :: after := drop_succ_of_drop hd5
    have hsl2 : Py.slice bdata (pstart + 1 + nm.length + 2)
        (pstart + 1 + nm.length + 2 + v.length) = v := slice_of_drop hd4
    cases ps' with
    | nil =>
      simp only [List.flatMap_nil, List.nil_append] at hd6
      have hget2 : bdata.get? (pstart + 1 + nm.length + 2 + v.length + 1) =
          some ']' := get?_of_drop hd6
      have hpe : pstart + 1 + nm.length + 2 + v.length + 1 + 1 = eend + 1 := by
        simp only [List.flatMap_nil, List.length_nil] at hlenfp
        omega
      simp only [paramsLoop, hfir, hsl1, hget1, hclose, hget2,
        Nat.add_sub_cancel, hsl2]
      simp [List.isEmpty_iff, hnm_ne, hnm32, hpe]
    | cons p' ps'' =>
      obtain ⟨hp1_ne, hp1_len, hp1_eq, hv'⟩ := hwf p' (by simp)
      have hd7 := hd6
      rw [show (p' :: ps'').flatMap formatParam ++ ']' :: after =
          ' ' :: (p'.1 ++ '=' :: '"' :: (p'.2 ++ '"' ::
            (ps''.flatMap formatParam ++ ']' :: after))) from by
        simp [List.flatMap_cons, formatParam_shape hv',
          List.append_assoc]] at hd7
      have hget2 : bdata.get? (pstart + 1 + nm.length + 2 + v.length + 1) =
          some ' ' := get?_of_drop hd7
      have hnotgt : ¬ (pstart + 1 + nm.length + 2 + v.length + 1 > eend) := by
        omega
      have hrec := paramsLoop_run bdata (p' :: ps'') fuel'
        (pstart + 1 + nm.length + 2 + v.length + 1) eend
        (alSet nm v acc) after (by simp) hd6 (by omega)
        (fun pv hpv => hwf pv (by simp [hpv])) (by simp at hfuel ⊢; omega)
      simp only [paramsLoop, hfir, hsl1, hget1, hclose, hget2,
        Nat.add_sub_cancel, hsl2]
      simp only [List.isEmpty_iff, hnm_ne, hnm32]
      rw [if_neg (by simp [List.isEmpty_iff, hnm_ne, hnm32])]
      simp only [reduceIte]
      rw [if_neg hnotgt, hrec]
      simp [List.foldl_cons]

/-- The elements loop consumes exactly the formatted structured data,
stores the elements in order, and stops at the end of the data (or at the
space before the message). -/
theorem elemsLoop_run (bdata : List Char) :
    ∀ (es : SData) (fuel bstart : Nat) (data : SData) (after : List Char),
      es ≠ [] →
      bdata.drop bstart = es.flatMap formatElem ++ after →
      (after = [] ∨ ∃ mtail, after = ' ' :: mtail) →
      (∀ ep ∈ es, (ep.1 ≠ [] ∧ ' ' ∉ ep.1 ∧ ']' ∉ ep.1) ∧ ep.2 ≠ [] ∧
        (ep.2.map Prod.fst).Nodup ∧
        ∀ pv ∈ ep.2, pv.1 ≠ [] ∧ pv.1.length ≤ 32 ∧ '=' ∉ pv.1 ∧
          ']' ∉ pv.1 ∧ ∀ c ∈ pv.2, c ≠ '"' ∧ c ≠ '\\' ∧ c ≠ ']') →
      es.length ≤ fuel →
      elemsLoop bdata bdata.length fuel bstart data =
        .ok (es.foldl (fun d ep => alSet ep.1 ep.2 d) data,
          bstart + (es.flatMap formatElem).length)
  | [], _, _, _, _, hne, _, _, _, _ => absurd rfl hne
  | (eid, ps) :: es', fuel, bstart, data, after, _, hdrop, hafter, hwf,
      hfuel => by
    obtain ⟨heid, hps_ne, hps_nd, hpv⟩ := hwf (eid, ps) (by simp)
    obtain ⟨heid_ne, heid_sp, heid_br⟩ := heid
    replace heid_ne : eid ≠ [] := heid_ne
    replace heid_sp : ' ' ∉ eid := heid_sp
    replace heid_br : ']' ∉ eid := heid_br
    replace hps_ne : ps ≠ [] := hps_ne
    replace hpv : ∀ pv ∈ ps, pv.1 ≠ [] ∧ pv.1.length ≤ 32 ∧ '=' ∉ pv.1 ∧
      ']' ∉ pv.1 ∧ ∀ c ∈ pv.2, c ≠ '"' ∧ c ≠ '\\' ∧ c ≠ ']' := hpv
    obtain ⟨⟨nm0, v0⟩, ps0, rfl⟩ : ∃ p0 ps0, ps = p0 :: ps0 := by
      cases ps with
      | nil => exact absurd rfl hps_ne
      | cons p0 ps0 => exact ⟨p0, ps0, rfl⟩
    obtain ⟨h0_ne, h0_len, h0_eq, h0_br, h0_v⟩ := hpv (nm0, v0) (by simp)
    replace h0_v : ∀ c ∈ v0, c ≠ '"' ∧ c ≠ '\\' ∧ c ≠ ']' := h0_v
    cases fuel with
    | zero => simp at hfuel
    | succ fuel' =>
    have hbr_fp : ']' ∉ ((nm0, v0) :: ps0).flatMap formatParam :=
      not_mem_flatMap_formatParam
        (fun pv hm => ⟨(hpv pv hm).2.2.2.1, (hpv pv hm).2.2.2.2⟩)
    have hshape : ((eid, (nm0, v0) :: ps0) :: es').flatMap formatElem ++
        after = '[' :: (eid ++
          (((nm0, v0) :: ps0).flatMap formatParam ++ ']' ::
            (es'.flatMap formatElem ++ after))) := by
      simp [List.flatMap_cons, formatElem, List.append_assoc]
    rw [hshape] at hdrop
    have hget0 : bdata.get? bstart = some '[' := get?_of_drop hdrop
    have hdropA : bdata.drop bstart =
        ('[' :: (eid ++ ((nm0, v0) :: ps0).flatMap formatParam)) ++ ']' ::
          (es'.flatMap formatElem ++ after) := by
      rw [hdrop]
      simp [List.append_assoc]
    have hfe : Py.findFrom bdata ']' bstart = some
        (bstart + ('[' :: (eid ++
          ((nm0, v0) :: ps0).flatMap formatParam)).length) :=
      findFrom_of_drop hdropA (by
        simp only [List.mem_cons, List.mem_append]
        push_neg
        exact ⟨by decide, heid_br, hbr_fp⟩)
    have hfe2 : Py.findFrom bdata ']' bstart = some (bstart + 1 +
        eid.length + (((nm0, v0) :: ps0).flatMap formatParam).length) := by
      rw [hfe]
      have h1 : ('[' :: (eid ++
          ((nm0, v0) :: ps0).flatMap formatParam)).length =
          1 + eid.length +
            (((nm0, v0) :: ps0).flatMap formatParam).length := by
        simp
        omega
      rw [h1]
      have h2 : bstart + (1 + eid.length +
            (((nm0, v0) :: ps0).flatMap formatParam).length) =
          bstart + 1 + eid.length +
            (((nm0, v0) :: ps0).flatMap formatParam).length := by
        omega
      rw [h2]
    have hlen0 : (formatParam (nm0, v0)).length =
        nm0.length + v0.length + 4 := formatParam_length h0_v
    have hlenfp : (((nm0, v0) :: ps0).flatMap formatParam).length =
        (formatParam (nm0, v0)).length +
          (ps0.flatMap formatParam).length := by
      simp [List.flatMap_cons]
    have hdropB : bdata.drop bstart = ('[' :: eid) ++ ' ' ::
        (nm0 ++ '=' :: '"' :: (v0 ++ '"' :: (ps0.flatMap formatParam ++
          ']' :: (es'.flatMap formatElem ++ after)))) := by
      rw [hdrop]
      simp [List.flatMap_cons, formatParam_shape h0_v, List.append_assoc]
    have hfs : Py.findFrom bdata ' ' bstart =
        some (bstart + ('[' :: eid).length) :=
      findFrom_of_drop hdropB (by
        simp only [List.mem_cons]
        push_neg
        exact ⟨by decide, heid_sp⟩)
    have hfs2 : Py.findFrom bdata ' ' bstart =
        some (bstart + 1 + eid.length) := by
      rw [hfs]
      have h1 : ('[' :: eid).length = 1 + eid.length := by
        simp
        omega
      rw [h1]
      have h2 : bstart + (1 + eid.length) = bstart + 1 + eid.length := by
        omega
      rw [h2]
    have hfsr : Py.findInRange bdata ' ' bstart (bstart + 1 + eid.length +
        (((nm0, v0) :: ps0).flatMap formatParam).length) =
        some (bstart + 1 + eid.length) := by
      simp only [Py.findInRange, hfs2]
      rw [if_pos (by omega)]
    have hd1 : bdata.drop (bstart + 1) = eid ++ (' ' ::
        (nm0 ++ '=' :: '"' :: (v0 ++ '"' :: (ps0.flatMap formatParam ++
          ']' :: (es'.flatMap formatElem ++ after))))) := by
      have := @drop_succ_of_drop bdata bstart '['
        (eid ++ ' ' :: (nm0 ++ '=' :: '"' ::
          (v0 ++ '"' :: (ps0.flatMap formatParam ++
            ']' :: (es'.flatMap formatElem ++ after))))) (by
        rw [hdropB]
        simp)
      simpa using this
    have hsl : Py.slice bdata (bstart + 1) (bstart + 1 + eid.length) =
        eid := slice_of_drop hd1
    have hd2 : bdata.drop (bstart + 1 + eid.length) =
        ((nm0, v0) :: ps0).flatMap formatParam ++ ']' ::
          (es'.flatMap formatElem ++ after) := by
      have := drop_shift hd1
      rw [this]
      simp [List.flatMap_cons, formatParam_shape h0_v, List.append_assoc]
    have hdl : bstart + 1 + eid.length +
        (((nm0, v0) :: ps0).flatMap formatParam).length + 1 ≤
          bdata.length := by
      rcases drop_length_le hd2 with hle | hemp
      · have h2 : (((nm0, v0) :: ps0).flatMap formatParam ++ ']' ::
            (es'.flatMap formatElem ++ after)).length =
              (((nm0, v0) :: ps0).flatMap formatParam).length + 1 +
                (es'.flatMap formatElem ++ after).length := by
          simp only [List.length_append, List.length_cons]
          omega
        omega
      · simp at hemp
    have hparams := paramsLoop_run bdata ((nm0, v0) :: ps0)
      (bdata.length + 1) (bstart + 1 + eid.length)
      (bstart + 1 + eid.length +
        (((nm0, v0) :: ps0).flatMap formatParam).length) []
      (es'.flatMap formatElem ++ after) (by simp) hd2 rfl
      (fun pv hm => ⟨(hpv pv hm).1, (hpv pv hm).2.1, (hpv pv hm).2.2.1,
        (hpv pv hm).2.2.2.2⟩)
      (by
        have h1 := flatMap_formatParam_length_ge ((nm0, v0) :: ps0)
        omega)
    have hfold : ((nm0, v0) :: ps0).foldl
        (fun d pv => alSet pv.1 pv.2 d) ([] : SParams) =
          (nm0, v0) :: ps0 := by
      rw [foldl_alSet_eq _ _ hps_nd (by simp)]
      simp
    have hd3 : bdata.drop (bstart + 1 + eid.length +
        (((nm0, v0) :: ps0).flatMap formatParam).length + 1) =
          es'.flatMap formatElem ++ after := by
      have hs := drop_shift hd2
      exact drop_succ_of_drop hs
    have hlenel : (formatElem (eid, (nm0, v0) :: ps0)).length =
        1 + eid.length +
          (((nm0, v0) :: ps0).flatMap formatParam).length + 1 := by
      simp only [formatElem, List.length_cons, List.length_append,
        List.length_nil]
      omega
    cases es' with
    | nil =>
      simp only [List.flatMap_nil, List.nil_append] at hd3
      have hpos : bstart + (((eid, (nm0, v0) :: ps0) :: []).flatMap
          formatElem).length = bstart + 1 + eid.length +
            (((nm0, v0) :: ps0).flatMap formatParam).length + 1 := by
        have h1 : ((eid, (nm0, v0) :: ps0) :: []).flatMap formatElem =
            formatElem (eid, (nm0, v0) :: ps0) := by
          simp
        rw [h1, hlenel]
        omega
      rcases hafter with rfl | ⟨mtail, rfl⟩
      · have hge : bstart + 1 + eid.length +
            (((nm0, v0) :: ps0).flatMap formatParam).length + 1 ≥
              bdata.length := by
          have h1 := List.length_drop (bstart + 1 + eid.length +
            (((nm0, v0) :: ps0).flatMap formatParam).length + 1) bdata
          rw [hd3] at h1
          simp only [List.length_nil] at h1
          omega
        simp only [elemsLoop, hget0, hfe2, hfsr, hparams]
        rw [if_neg (by decide), if_pos hge]
        rw [hsl, hfold, hpos]
        simp [List.foldl_cons, List.foldl_nil]
      · have hlt : ¬ (bstart + 1 + eid.length +
            (((nm0, v0) :: ps0).flatMap formatParam).length + 1 ≥
              bdata.length) := by
          have h1 := List.length_drop (bstart + 1 + eid.length +
            (((nm0, v0) :: ps0).flatMap formatParam).length + 1) bdata
          rw [hd3] at h1
          simp only [List.length_cons] at h1
          omega
        have hgsp : bdata.get? (bstart + 1 + eid.length +
            (((nm0, v0) :: ps0).flatMap formatParam).length + 1) =
              some ' ' := get?_of_drop hd3
        simp only [elemsLoop, hget0, hfe2, hfsr, hparams]
        rw [if_neg (by decide), if_neg hlt, hgsp]
        simp only [reduceIte]
        rw [hsl, hfold, hpos]
        simp [List.foldl_cons, List.foldl_nil]
    | cons e' es'' =>
      obtain ⟨heid', hps_ne', _, hpv'⟩ := hwf e' (by simp)
      have hd3' : bdata.drop (bstart + 1 + eid.length +
          (((nm0, v0) :: ps0).flatMap formatParam).length + 1) =
            '[' :: (e'.1 ++ (e'.2.flatMap formatParam ++ ']' ::
              (es''.flatMap formatElem ++ after))) := by
        rw [hd3]
        simp [List.flatMap_cons, formatElem, List.append_assoc]
      have hlt : ¬ (bstart + 1 + eid.length +
          (((nm0, v0) :: ps0).flatMap formatParam).length + 1 ≥
            bdata.length) := by
        have h1 := List.length_drop (bstart + 1 + eid.length +
          (((nm0, v0) :: ps0).flatMap formatParam).length + 1) bdata
        rw [hd3'] at h1
        simp only [List.length_cons] at h1
        omega
      have hgbr : bdata.get? (bstart + 1 + eid.length +
          (((nm0, v0) :: ps0).flatMap formatParam).length + 1) =
            some '[' := get?_of_drop hd3'
      have hrec := elemsLoop_run bdata (e' :: es'') fuel'
        (bstart + 1 + eid.length +
          (((nm0, v0) :: ps0).flatMap formatParam).length + 1)
        (alSet eid ((nm0, v0) :: ps0) data) after (by simp) hd3 hafter
        (fun ep hm => hwf ep (by simp [hm]))
        (by simp at hfuel ⊢; omega)
      have hpos : bstart + (((eid, (nm0, v0) :: ps0) :: e' :: es'').flatMap
          formatElem).length = bstart + 1 + eid.length +
            (((nm0, v0) :: ps0).flatMap formatParam).length + 1 +
              ((e' :: es'').flatMap formatElem).length := by
        rw [show ((eid, (nm0, v0) :: ps0) :: e' :: es'').flatMap
            formatElem = formatElem (eid, (nm0, v0) :: ps0) ++
              (e' :: es'').flatMap formatElem from by
          simp [List.flatMap_cons]]
        simp only [List.length_append]
        omega
      simp only [elemsLoop, hget0, hfe2, hfsr, hparams]
      rw [if_neg (by decide), if_neg hlt, hgbr]
      simp only [reduceIte]
      simp only [hsl, hfold]
      rw [hrec, hpos]
      simp [List.foldl_cons]

/-! ### The header fields, formatted and re-parsed -/

/-- A graphical character is not the space. -/
theorem isGraphChar_ne_space {c : Char} (h : isGraphChar c = true) :
    c ≠ ' ' := by
  rintro rfl
  exact absurd h (by decide)

/-- Digit strings contain no space. -/
theorem space_not_mem_natToDigits (n : Nat) : ' ' ∉ natToDigits n := by
  intro hm
  obtain ⟨dd, hdd, heq⟩ := (natToDigits_spec n).2.2 ' ' hm
  exact (digitChar_facts dd hdd).2.2.2.2.2.1 heq.symm

/-- Formatted header fields contain no space. -/
theorem space_not_mem_formatField {x : Option (List Char)} {n : Nat}
    (hx : fieldOk n x) : ' ' ∉ formatField x := by
  cases x with
  | none => simp [formatField]
  | some t =>
    intro hm
    exact isGraphChar_ne_space (hx.2.2.1 ' ' hm) rfl

/-- `checkField` accepts a formatted well-formed field and restores it. -/
theorem checkField_run {x : Option (List Char)} {maxLen : Nat}
    (hx : fieldOk maxLen x) (hm : 1 ≤ maxLen) :
    checkField (formatField x) maxLen = .ok x := by
  cases x with
  | none =>
    unfold checkField formatField
    rw [if_neg (by decide), if_neg (by
      push_neg
      exact ⟨by decide, by simp; omega⟩)]
    simp
  | some t =>
    obtain ⟨h_ne, h_len, h_graph, h_dash⟩ := hx
    unfold checkField formatField
    have hg : is_graph t = true := by
      rw [is_graph, List.all_eq_true]
      exact h_graph
    rw [if_neg (by simp [hg]), if_neg (by
      push_neg
      exact ⟨by simp [List.isEmpty_iff, h_ne], by omega⟩)]
    simp [h_dash]

/-- The timestamp nil-marker test restores the timestamp field. -/
theorem tsField_run {x : Option (List Char)} (hx : fieldOk 255 x) :
    (if formatField x = ['-'] then none else some (formatField x)) = x := by
  cases x with
  | none => simp [formatField]
  | some t =>
    obtain ⟨-, -, -, h_dash⟩ := hx
    simp [formatField, h_dash]

/-- `parseHeader` restores a well-formed header from its formatted
space-split fields. -/
theorem parseHeader_run (hd : SyslogHead) (sd : List Char)
    (h0 : 0 ≤ hd.prival) (h1 : 0 ≤ hd.version)
    (hts : fieldOk 255 hd.timestamp) (hhost : fieldOk 255 hd.hostname)
    (happ : fieldOk 48 hd.appname) (hproc : fieldOk 128 hd.procid)
    (hmsg : fieldOk 32 hd.msgid) :
    parseHeader ['<' :: (natToDigits hd.prival.toNat ++ '>' ::
        natToDigits hd.version.toNat),
      formatField hd.timestamp, formatField hd.hostname,
      formatField hd.appname, formatField hd.procid,
      formatField hd.msgid, sd] = .ok hd := by
  obtain ⟨hv1, hn1, hc1⟩ := natToDigits_spec hd.prival.toNat
  obtain ⟨hv2, hn2, hc2⟩ := natToDigits_spec hd.version.toNat
  have hdrop0 : ('<' :: (natToDigits hd.prival.toNat ++ '>' ::
      natToDigits hd.version.toNat)).drop 0 =
        ('<' :: natToDigits hd.prival.toNat) ++ '>' ::
          natToDigits hd.version.toNat := by
    simp
  have hgt_not : '>' ∉ '<' :: natToDigits hd.prival.toNat := by
    simp only [List.mem_cons]
    push_neg
    refine ⟨by decide, ?_⟩
    intro hm
    obtain ⟨dd, hdd, heq⟩ := hc1 '>' hm
    exact (digitChar_facts dd hdd).2.2.2.2.2.2.1 heq.symm
  have hfe : Py.findFrom ('<' :: (natToDigits hd.prival.toNat ++ '>' ::
      natToDigits hd.version.toNat)) '>' 0 =
        some (1 + (natToDigits hd.prival.toNat).length) := by
    have h2 := findFrom_of_drop hdrop0 hgt_not
    rw [h2]
    simp
    omega
  have hd1 : ('<' :: (natToDigits hd.prival.toNat ++ '>' ::
      natToDigits hd.version.toNat)).drop 1 =
        natToDigits hd.prival.toNat ++ '>' ::
          natToDigits hd.version.toNat := by
    simp
  have hsl1 : Py.slice ('<' :: (natToDigits hd.prival.toNat ++ '>' ::
      natToDigits hd.version.toNat)) 1
        (1 + (natToDigits hd.prival.toNat).length) =
          natToDigits hd.prival.toNat := slice_of_drop hd1
  have hpy1 : Py.pyInt (natToDigits hd.prival.toNat) = some hd.prival := by
    rw [pyInt_digits hn1 hc1, hv1, Int.toNat_of_nonneg h0]
  have hd2 : ('<' :: (natToDigits hd.prival.toNat ++ '>' ::
      natToDigits hd.version.toNat)).drop
        (1 + (natToDigits hd.prival.toNat).length + 1) =
          natToDigits hd.version.toNat := by
    have hs := drop_shift hd1
    exact drop_succ_of_drop hs
  have hpy2 : Py.pyInt (natToDigits hd.version.toNat) = some hd.version := by
    rw [pyInt_digits hn2 hc2, hv2, Int.toNat_of_nonneg h1]
  simp only [parseHeader, List.headD_cons, List.length_cons,
    List.length_nil, List.get?_cons_zero, hfe, hsl1, hpy1, hd2, hpy2,
    List.getD_cons_zero, List.getD_cons_succ]
  rw [if_neg (by decide)]
  simp only [checkField_run hhost (by omega), checkField_run happ (by omega),
    checkField_run hproc (by omega), checkField_run hmsg (by omega)]
  have hts2 := tsField_run hts
  simp [hts2, Except.bind, Bind.bind, pure, Except.pure]

/-- `parseBody` restores well-formed structured data and message from
their formatted concatenation. -/
theorem parseBody_run (d : SData) (m : List Char)
    (hwfd : ∀ ep ∈ d, (ep.1 ≠ [] ∧ ' ' ∉ ep.1 ∧ ']' ∉ ep.1) ∧ ep.2 ≠ [] ∧
      (ep.2.map Prod.fst).Nodup ∧
      ∀ pv ∈ ep.2, pv.1 ≠ [] ∧ pv.1.length ≤ 32 ∧ '=' ∉ pv.1 ∧
        ']' ∉ pv.1 ∧ ∀ c ∈ pv.2, c ≠ '"' ∧ c ≠ '\\' ∧ c ≠ ']')
    (hnd : (d.map Prod.fst).Nodup)
    (hdm : d = [] → m = []) (hbom : m.take 3 ≠ bomChars) :
    parseBody (formatSD d ++ (if m = [] then [] else ' ' :: m)) =
      .ok (d, ⟨false, m⟩) := by
  cases d with
  | nil =>
    rw [hdm rfl]
    decide
  | cons e0 d' =>
    have hafter : (if m = [] then [] else ' ' :: m) = [] ∨
        ∃ mtail, (if m = [] then [] else ' ' :: m) = ' ' :: mtail := by
      by_cases hm : m = [] <;> simp [hm]
    have hsd : formatSD (e0 :: d') = (e0 :: d').flatMap formatElem := by
      simp [formatSD]
    have hdrop0 : ((e0 :: d').flatMap formatElem ++
        (if m = [] then [] else ' ' :: m)).drop 0 =
          (e0 :: d').flatMap formatElem ++
            (if m = [] then [] else ' ' :: m) := List.drop_zero _
    have hlenfm := flatMap_formatElem_length_ge (e0 :: d')
    have hrun := elemsLoop_run ((e0 :: d').flatMap formatElem ++
        (if m = [] then [] else ' ' :: m)) (e0 :: d')
      (((e0 :: d').flatMap formatElem ++
        (if m = [] then [] else ' ' :: m)).length + 1) 0 []
      (if m = [] then [] else ' ' :: m) (by simp) hdrop0 hafter hwfd
      (by
        simp only [List.length_append]
        omega)
    have hfold : (e0 :: d').foldl (fun dd ep => alSet ep.1 ep.2 dd)
        ([] : SData) = e0 :: d' := by
      rw [foldl_alSet_eq _ _ hnd (by simp)]
      simp
    rw [hfold] at hrun
    have hne1 : (e0 :: d').flatMap formatElem ++
        (if m = [] then [] else ' ' :: m) ≠ ['-'] := by
      have hX : (e0 :: d').flatMap formatElem ++
          (if m = [] then [] else ' ' :: m) =
            '[' :: (e0.1 ++ (e0.2.flatMap formatParam ++ ']' ::
              (d'.flatMap formatElem ++
                (if m = [] then [] else ' ' :: m)))) := by
        simp [List.flatMap_cons, formatElem, List.append_assoc]
      rw [hX]
      simp
    by_cases hm : m = []
    · subst hm
      simp only [reduceIte, List.append_nil] at hrun hdrop0 hafter hne1 ⊢
      rw [hsd]
      simp only [parseBody, List.append_nil]
      rw [if_neg hne1]
      rw [hrun]
      simp only [Except.bind, Bind.bind, pure, Except.pure]
      rw [if_pos (by simp)]
    · simp only [if_neg hm] at hrun hdrop0 hafter ⊢
      rw [hsd]
      simp only [parseBody]
      rw [if_neg (by rw [if_neg hm] at hne1; exact hne1)]
      rw [hrun]
      simp only [Except.bind, Bind.bind, pure, Except.pure]
      have hdm2 : ((e0 :: d').flatMap formatElem ++ ' ' :: m).drop
          (0 + ((e0 :: d').flatMap formatElem).length) = ' ' :: m := by
        have := @drop_shift ((e0 :: d').flatMap formatElem ++ ' ' :: m)
          0 ((e0 :: d').flatMap formatElem) (' ' :: m) (by simp)
        exact this
      have hlt : ¬ (0 + ((e0 :: d').flatMap formatElem).length ≥
          ((e0 :: d').flatMap formatElem ++ ' ' :: m).length) := by
        simp only [List.length_append, List.length_cons]
        omega
      rw [if_neg hlt, get?_of_drop hdm2]
      simp only [reduceIte]
      have hmsg : ((e0 :: d').flatMap formatElem ++ ' ' :: m).drop
          (0 + ((e0 :: d').flatMap formatElem).length + 1) = m :=
        drop_succ_of_drop hdm2
      rw [hmsg, if_neg hbom]
      simp

/-- `fieldOk` is decidable (used to evaluate concrete witnesses). -/
instance (n : Nat) : (x : Option (List Char)) → Decidable (fieldOk n x)
  | none => isTrue trivial
  | some t =>
    inferInstanceAs (Decidable (t ≠ [] ∧ t.length ≤ n ∧
      (∀ c ∈ t, isGraphChar c = true) ∧ t ≠ ['-']))

set_option synthInstance.maxSize 2000 in
/-- `WellFormed` is decidable (used to evaluate concrete witnesses). -/
instance (h : SyslogHead) (d : SData) (m : List Char) :
    Decidable (WellFormed h d m) := by
  unfold WellFormed sdNameOk valueOk
  infer_instance

/-- C8 (amended): the round trip holds exactly on the fragment
`WellFormed` carves out: well-formed triples whose param values are
escape-free, whose elements each carry at least one param, and whose
message is empty when the structured data is nil. Formatting such a
triple as an RFC-5424 line and re-parsing with `parse_syslog` reproduces
the header, the element-id to param-name to value mapping, and the
message, with no BOM decoration. Each of the three restrictions is
necessary: outside the fragment the round trip fails — an escaped value
keeps its backslash, a zero-param element loops forever, and nil
structured data followed by a message raises `ValueError` (see the
counterexample). -/
theorem C8_format_parse_roundtrip (h : SyslogHead) (d : SData)
    (m : List Char) (hwf : WellFormed h d m) :
    parse_syslog (format_syslog h d m) = .ok (h, d, ⟨false, m⟩) := by
  obtain ⟨h0, -, h1, -, hts, hhost, happ, hproc, hmsg, helems, hnd, hpnd,
    hdm, hbom⟩ := hwf
  have hwfd : ∀ ep ∈ d, (ep.1 ≠ [] ∧ ' ' ∉ ep.1 ∧ ']' ∉ ep.1) ∧
      ep.2 ≠ [] ∧ (ep.2.map Prod.fst).Nodup ∧
      ∀ pv ∈ ep.2, pv.1 ≠ [] ∧ pv.1.length ≤ 32 ∧ '=' ∉ pv.1 ∧
        ']' ∉ pv.1 ∧ ∀ c ∈ pv.2, c ≠ '"' ∧ c ≠ '\\' ∧ c ≠ ']' := by
    intro ep hep
    obtain ⟨⟨hne, hlen, hchars⟩, hpne, hpv⟩ := helems ep hep
    refine ⟨⟨hne, ?_, ?_⟩, hpne, hpnd ep hep, ?_⟩
    · intro hsp
      exact isGraphChar_ne_space (hchars ' ' hsp).1 rfl
    · intro hbr
      exact (hchars ']' hbr).2.2.1 rfl
    · intro pv hpvm
      obtain ⟨⟨hne2, hlen2, hchars2⟩, hval⟩ := hpv pv hpvm
      refine ⟨hne2, hlen2, ?_, ?_, hval⟩
      · intro heq
        exact (hchars2 '=' heq).2.1 rfl
      · intro hbr
        exact (hchars2 ']' hbr).2.2.1 rfl
  have hsp0 : ' ' ∉ '<' :: (natToDigits h.prival.toNat ++ '>' ::
      natToDigits h.version.toNat) := by
    simp only [List.mem_cons, List.mem_append]
    push_neg
    exact ⟨by decide, fun hm => space_not_mem_natToDigits _ hm,
      by decide, fun hm => space_not_mem_natToDigits _ hm⟩
  have hfs : format_syslog h d m =
      ('<' :: (natToDigits h.prival.toNat ++ '>' ::
          natToDigits h.version.toNat)) ++ ' ' ::
        (formatField h.timestamp ++ ' ' ::
          (formatField h.hostname ++ ' ' ::
            (formatField h.appname ++ ' ' ::
              (formatField h.procid ++ ' ' ::
                (formatField h.msgid ++ ' ' ::
                  (formatSD d ++
                    (if m = [] then [] else ' ' :: m))))))) := by
    simp [format_syslog, List.append_assoc]
  have hsplit : Py.splitLimit ' ' 6 (format_syslog h d m) =
      ['<' :: (natToDigits h.prival.toNat ++ '>' ::
          natToDigits h.version.toNat),
        formatField h.timestamp, formatField h.hostname,
        formatField h.appname, formatField h.procid, formatField h.msgid,
        formatSD d ++ (if m = [] then [] else ' ' :: m)] := by
    rw [hfs]
    rw [splitLimit_cons hsp0,
      splitLimit_cons (space_not_mem_formatField hts),
      splitLimit_cons (space_not_mem_formatField hhost),
      splitLimit_cons (space_not_mem_formatField happ),
      splitLimit_cons (space_not_mem_formatField hproc),
      splitLimit_cons (space_not_mem_formatField hmsg)]
    rfl
  simp only [parse_syslog, hsplit, List.getD_cons_zero, List.getD_cons_succ]
  rw [parseHeader_run h (formatSD d ++ (if m = [] then [] else ' ' :: m))
    h0 (by omega) hts hhost happ hproc hmsg]
  rw [parseBody_run d m hwfd hnd hdm hbom]
  rfl

/-- Evaluates the amended round-trip theorem on a concrete well-formed
triple: a populated hostname, one element with one escape-free param, and
a plain message survive format-then-parse unchanged. -/
theorem C8_format_parse_roundtrip_witness :
    WellFormed ⟨134, 1, none, some ("myhost").data, none, none, none⟩
        [(("e1").data, [(("n").data, ("val").data)])] ("hi").data ∧
      parse_syslog (format_syslog
          ⟨134, 1, none, some ("myhost").data, none, none, none⟩
          [(("e1").data, [(("n").data, ("val").data)])] ("hi").data) =
        .ok (⟨134, 1, none, some ("myhost").data, none, none, none⟩,
          [(("e1").data, [(("n").data, ("val").data)])],
          ⟨false, ("hi").data⟩) :=
  ⟨by decide, C8_format_parse_roundtrip _ _ _ (by decide)⟩

end Bend
